import Mathlib

/-!
# Adafruit_Arcada USB mass-storage flash cache

A shallow embedding of `Adafruit_Arcada_USBMSD.cpp` (TinyUSB + QSPI flash build):
the single-slot write-back page cache (`flash_cache_flush`, `flash_cache_write`,
`flash_cache_read`) and the activity hint `recentUSB`.

* `uint32_t` values are natural numbers below `2^32`; every `+` and `-` of the
  source is taken modulo `2^32` (`u32add`, `u32sub`).
* `int` values are integers; conversions between `int` and `uint32_t` are the
  two's-complement ones (`toInt32`, `toU32`).
* A byte buffer reached through a pointer is a function from index to byte.
* The QSPI flash is an external collaborator: its content, the operations issued
  to it and the success flag of each operation are modelled in `Flash`.
-/

namespace Arcada

/-! ## Machine arithmetic -/

/-- Number of values of a `uint32_t`. -/
def U32 : Nat := 2 ^ 32

/-- Sum of two `uint32_t`, wrapping. -/
def u32add (a b : Nat) : Nat := (a + b) % U32

/-- Difference of two `uint32_t`, wrapping. -/
def u32sub (a b : Nat) : Nat := (a + U32 - b % U32) % U32

/-- Conversion of a `uint32_t` to `int` (two's complement, 32 bits). -/
def toInt32 (n : Nat) : Int :=
  if n % U32 < 2 ^ 31 then ((n % U32 : Nat) : Int) else ((n % U32 : Nat) : Int) - (U32 : Int)

/-- Conversion of an `int` to `uint32_t`. -/
def toU32 (z : Int) : Nat := (z % (U32 : Int)).toNat

/-- Result of an `int` operation whose mathematical value is `z`, in two's complement. -/
def wrapInt32 (z : Int) : Int := toInt32 (toU32 z)

/-! ## Buffers -/

/-- A byte buffer addressed from a pointer: index to byte. -/
abbrev Buf := Nat → Nat

/-- Effect of `memcpy(dst + off, src, len)` on the buffer `dst`. -/
def memcpy (dst : Buf) (off : Nat) (src : Buf) (len : Nat) : Buf :=
  fun i => if off ≤ i ∧ i < off + len then src (i - off) else dst i

/-- The pointer `p + k`. -/
def Buf.shift (p : Buf) (k : Nat) : Buf := fun i => p (k + i)

/-! ## The flash device -/

/-- The macro `#define FLASH_CACHE_SIZE 4096`. -/
def FLASH_CACHE_SIZE : Nat := 4096

/-- The macro `#define FLASH_CACHE_INVALID_ADDR 0xffffffff`. -/
def FLASH_CACHE_INVALID_ADDR : Nat := 0xffffffff

/-- An operation issued to the flash device. -/
inductive FlashOp where
  | readBuffer (addr len : Nat)
  | eraseSector (sector : Nat)
  | writeBuffer (addr : Nat) (data : Buf) (len : Nat)

/-- Modelled from the spec: the flash device adapter `arcada_qspi_flash`
(class `Adafruit_QSPI_Flash`, not part of this file). It exposes a sector erase, a
program and a read, each returning success or failure. `mem` is the content, `log`
the operations issued so far in order, and `ok k` tells whether the operation
issued as number `k` succeeds. A failing operation leaves the content alone. -/
structure Flash where
  mem : Buf
  log : List FlashOp
  ok : Nat → Bool

/-- Modelled from the spec: `eraseSector(sector)` erases the 4096-byte sector with
that index (every byte becomes `0xFF`). -/
def Flash.eraseSector (f : Flash) (sector : Nat) : Bool × Flash :=
  let good := f.ok f.log.length
  (good,
   { f with
     log := f.log ++ [FlashOp.eraseSector sector]
     mem := if good then
              fun a => if sector * FLASH_CACHE_SIZE ≤ a ∧ a < sector * FLASH_CACHE_SIZE + FLASH_CACHE_SIZE
                       then 0xFF else f.mem a
            else f.mem })

/-- Modelled from the spec: `writeBuffer(addr, data, len)` programs `len` bytes at
byte address `addr`. -/
def Flash.writeBuffer (f : Flash) (addr : Nat) (data : Buf) (len : Nat) : Bool × Flash :=
  let good := f.ok f.log.length
  (good,
   { f with
     log := f.log ++ [FlashOp.writeBuffer addr data len]
     mem := if good then memcpy f.mem addr data len else f.mem })

/-- Modelled from the spec: `readBuffer(addr, dst + off, len)` copies `len` bytes
found at byte address `addr` into the buffer. -/
def Flash.readBuffer (f : Flash) (addr : Nat) (dst : Buf) (off len : Nat) :
    Bool × Flash × Buf :=
  let good := f.ok f.log.length
  (good,
   { f with log := f.log ++ [FlashOp.readBuffer addr len] },
   if good then memcpy dst off (fun i => f.mem (addr + i)) len else dst)

/-- Every operation of the device succeeds. -/
def Flash.Healthy (f : Flash) : Prop := ∀ k, f.ok k = true

/-! ## The cache -/

/-- The globals of the flash path: `cache_addr`, `cache_buf` and the device. -/
structure State where
  cache_addr : Nat
  cache_buf : Buf
  flash : Flash

/-- Function `page_addr_of`: `addr & ~(FLASH_CACHE_SIZE - 1)`; on 32 bits `~x` is
`0xffffffff - x`. -/
def page_addr_of (addr : Nat) : Nat :=
  addr &&& (0xffffffff - (FLASH_CACHE_SIZE - 1))

/-- Function `page_offset_of`: `addr & (FLASH_CACHE_SIZE - 1)`. -/
def page_offset_of (addr : Nat) : Nat :=
  addr &&& (FLASH_CACHE_SIZE - 1)

/-- Function `flash_cache_flush`: the results of `eraseSector` and `writeBuffer` are
discarded, as in the source. The LED writes are left out. -/
def flash_cache_flush (s : State) : State :=
  if s.cache_addr = FLASH_CACHE_INVALID_ADDR then s
  else
    let f1 := (s.flash.eraseSector (s.cache_addr / FLASH_CACHE_SIZE)).2
    let f2 := (f1.writeBuffer s.cache_addr s.cache_buf FLASH_CACHE_SIZE).2
    { s with flash := f2, cache_addr := FLASH_CACHE_INVALID_ADDR }

/-- Length of the chunk written by one iteration: `min(remain, FLASH_CACHE_SIZE - offset)`. -/
def chunk_bytes (dst remain : Nat) : Nat :=
  min remain (u32sub FLASH_CACHE_SIZE (page_offset_of dst))

/-- The `if ( page_addr != cache_addr )` block of `flash_cache_write`. -/
def switch_page (s : State) (page_addr : Nat) : State :=
  if page_addr ≠ s.cache_addr then
    let s1 := flash_cache_flush s
    let r := s1.flash.readBuffer page_addr s1.cache_buf 0 FLASH_CACHE_SIZE
    { cache_addr := page_addr, cache_buf := r.2.2, flash := r.2.1 }
  else s

/-- One iteration of the `while ( remain )` loop of `flash_cache_write`:
the state, `dst`, `src8` and `remain` after it. -/
def write_step (s : State) (dst : Nat) (src8 : Buf) (remain : Nat) :
    State × Nat × Buf × Nat :=
  let page_addr := page_addr_of dst
  let offset := page_offset_of dst
  let wr_bytes := chunk_bytes dst remain
  let s1 := switch_page s page_addr
  let s2 := { s1 with cache_buf := memcpy s1.cache_buf offset src8 wr_bytes }
  (s2, u32add dst wr_bytes, src8.shift wr_bytes, u32sub remain wr_bytes)

/-- The `while ( remain )` loop; `none` when `fuel` iterations did not end it. -/
def flash_cache_write_loop : Nat → State → Nat → Buf → Nat → Option (State × Nat)
  | fuel, s, dst, src8, remain =>
    if remain = 0 then some (s, remain)
    else
      match fuel with
      | 0 => none
      | fuel + 1 =>
        let r := write_step s dst src8 remain
        flash_cache_write_loop fuel r.1 r.2.1 r.2.2.1 r.2.2.2

/-- Function `flash_cache_write(dst, src, len)`: the final state and the returned
`len - remain`. The loop is given `len` iterations. -/
def flash_cache_write (s : State) (dst : Nat) (src : Buf) (len : Nat) : Option (State × Nat) :=
  (flash_cache_write_loop len s dst src len).map (fun r => (r.1, u32sub len r.2))

/-- The overlap test of `flash_cache_read`. -/
def read_overlaps (cache_addr addr count : Nat) : Prop :=
  cache_addr ≠ FLASH_CACHE_INVALID_ADDR ∧
  ¬ (addr < cache_addr ∧ u32add addr count ≤ cache_addr) ∧
  ¬ (addr ≥ u32add cache_addr FLASH_CACHE_SIZE)

instance (cache_addr addr count : Nat) : Decidable (read_overlaps cache_addr addr count) := by
  unfold read_overlaps; exact inferInstance

/-- The value of `int dst_off = cache_addr - addr;` before the sign test. -/
def read_dst_off0 (cache_addr addr : Nat) : Int := toInt32 (u32sub cache_addr addr)

/-- The value of `src_off` after `if ( dst_off < 0 ) { src_off = -dst_off; dst_off = 0; }`. -/
def read_src_off (cache_addr addr : Nat) : Int :=
  if read_dst_off0 cache_addr addr < 0 then wrapInt32 (- read_dst_off0 cache_addr addr) else 0

/-- The value of `dst_off` after `if ( dst_off < 0 ) { src_off = -dst_off; dst_off = 0; }`. -/
def read_dst_off (cache_addr addr : Nat) : Int :=
  if read_dst_off0 cache_addr addr < 0 then 0 else read_dst_off0 cache_addr addr

/-- The value of `int cache_bytes = min(FLASH_CACHE_SIZE-src_off, count - dst_off);` where the
first argument is an `int`, the second a `uint32_t`, so that the comparison of
`min` is made on `uint32_t`. -/
def read_cache_bytes (cache_addr addr count : Nat) : Int :=
  toInt32 (min (toU32 ((FLASH_CACHE_SIZE : Int) - read_src_off cache_addr addr))
               (u32sub count (toU32 (read_dst_off cache_addr addr))))

/-- The `memcpy` of `flash_cache_read` stays inside `cache_buf` and
`dst_off + cache_bytes` is an `int`: outside of this the C code has no defined
behaviour. -/
def read_defined (cache_addr addr count : Nat) : Prop :=
  0 ≤ read_src_off cache_addr addr ∧ 0 ≤ read_cache_bytes cache_addr addr count ∧
  read_src_off cache_addr addr + read_cache_bytes cache_addr addr count ≤ (FLASH_CACHE_SIZE : Int) ∧
  read_dst_off cache_addr addr + read_cache_bytes cache_addr addr count < 2 ^ 31

instance (cache_addr addr count : Nat) : Decidable (read_defined cache_addr addr count) := by
  unfold read_defined; exact inferInstance

/-- Function `flash_cache_read(dst, addr, count)`: the state (the device logs the reads) and
the destination buffer afterwards; `none` where the C code has no defined
behaviour (see `read_defined`). The results of `readBuffer` are discarded. -/
def flash_cache_read (s : State) (dst : Buf) (addr count : Nat) : Option (State × Buf) :=
  if read_overlaps s.cache_addr addr count then
    let dst_off := read_dst_off s.cache_addr addr
    let src_off := read_src_off s.cache_addr addr
    let cache_bytes := read_cache_bytes s.cache_addr addr count
    if read_defined s.cache_addr addr count then
      -- start to cached
      let r1 := if dst_off ≠ 0 then (s.flash.readBuffer addr dst 0 (toU32 dst_off)).2
                else (s.flash, dst)
      -- cached
      let d2 := memcpy r1.2 dst_off.toNat (s.cache_buf.shift src_off.toNat) cache_bytes.toNat
      -- cached to end
      let copied := dst_off + cache_bytes
      let r3 := if toU32 copied < count then
                  (r1.1.readBuffer (u32add addr (toU32 copied)) d2 copied.toNat
                    (u32sub count (toU32 copied))).2
                else (r1.1, d2)
      some ({ s with flash := r3.1 }, r3.2)
    else none
  else
    let r := (s.flash.readBuffer addr dst 0 count).2
    some ({ s with flash := r.1 }, r.2)

/-! ## Activity hint -/

/-- Method `Adafruit_Arcada::recentUSB(timeout)` with `USE_TINYUSB` defined, as a function
of the global `last_access_ms` and of the value `curr_time` returned by `millis()`. -/
def recentUSB (last_access_ms curr_time timeout : Nat) : Bool :=
  if last_access_ms > curr_time then false   -- oi, rollover
  else if u32add last_access_ms timeout ≥ curr_time then true
  else false

/-- The value returned by the `eraseSector` call of `flash_cache_flush` (which the
source does not look at). -/
def flush_erase_ok (s : State) : Bool :=
  (s.flash.eraseSector (s.cache_addr / FLASH_CACHE_SIZE)).1

/-- The value returned by the `writeBuffer` call of `flash_cache_flush` (which the
source does not look at). -/
def flush_program_ok (s : State) : Bool :=
  ((s.flash.eraseSector (s.cache_addr / FLASH_CACHE_SIZE)).2.writeBuffer
    s.cache_addr s.cache_buf FLASH_CACHE_SIZE).1

/-- The device operations that flushing a populated slot issues, in order. -/
def flush_ops (s : State) : List FlashOp :=
  [FlashOp.eraseSector (s.cache_addr / FLASH_CACHE_SIZE),
   FlashOp.writeBuffer s.cache_addr s.cache_buf FLASH_CACHE_SIZE]

/-- The logical content of a state, in the words of the specification: the device
bytes overlaid by the slot's buffer on `[cache_addr, cache_addr + 4096)` when the
slot is populated. -/
def logical_content (s : State) (a : Nat) : Nat :=
  if s.cache_addr ≠ FLASH_CACHE_INVALID_ADDR ∧ s.cache_addr ≤ a ∧ a < s.cache_addr + 4096
  then s.cache_buf (a - s.cache_addr) else s.flash.mem a

/-- The slot invariant, in the words of the specification: `cache_addr` is the
invalid sentinel or a multiple of the page size. -/
def SlotInv (s : State) : Prop :=
  s.cache_addr = FLASH_CACHE_INVALID_ADDR ∨ s.cache_addr % FLASH_CACHE_SIZE = 0

/-! ## Command bridge -/

/-- Product of two `uint32_t`, wrapping. -/
def u32mul (a b : Nat) : Nat := (a * b) % U32

/-- The byte address computed by both callbacks: `const uint32_t addr = lba*512;`. -/
def msc_addr (lba : Nat) : Nat := u32mul lba 512

/-- The globals of the flash-backed callbacks: the cache with its device, and
`last_access_ms`. -/
structure MSC where
  cache : State
  last_access_ms : Nat

/-- Callback `msc_read_cb(lba, buffer, bufsize)` of the QSPI build; `millis` is the
value returned by `millis()`. The result is the globals, the buffer and the returned
`int32_t`, which is `bufsize` whatever the device reported. -/
def msc_read_cb (m : MSC) (millis lba : Nat) (buffer : Buf) (bufsize : Nat) :
    Option (MSC × Buf × Int) :=
  (flash_cache_read m.cache buffer (msc_addr lba) bufsize).map
    (fun r => ({ cache := r.1, last_access_ms := millis }, r.2, toInt32 bufsize))

/-- Callback `msc_write_cb(lba, buffer, bufsize)` of the QSPI build; the value of
`flash_cache_write` is dropped and `bufsize` is returned as an `int32_t`. -/
def msc_write_cb (m : MSC) (millis lba : Nat) (buffer : Buf) (bufsize : Nat) :
    Option (MSC × Int) :=
  (flash_cache_write m.cache (msc_addr lba) buffer bufsize).map
    (fun r => ({ cache := r.1, last_access_ms := millis }, toInt32 bufsize))

/-- Callback `msc_flush_cb()` of the QSPI build. -/
def msc_flush_cb (m : MSC) (millis : Nat) : MSC :=
  { cache := flash_cache_flush m.cache, last_access_ms := millis }

/-- The value returned by `msc_read_cb` of the SD build,
`FileSys.card()->readBlock(lba, buffer) ? 512 : -1`, from the result of `readBlock`. -/
def msc_read_cb_sd (readBlock_ok : Bool) : Int := if readBlock_ok then 512 else -1

/-- The value returned by `msc_write_cb` of the SD build,
`FileSys.card()->writeBlock(lba, buffer) ? 512 : -1`, from the result of `writeBlock`. -/
def msc_write_cb_sd (writeBlock_ok : Bool) : Int := if writeBlock_ok then 512 else -1

/-! ## Specification vocabulary -/

/-- An operation is a device read. -/
def FlashOp.isRead : FlashOp → Bool
  | FlashOp.readBuffer _ _ => true
  | _ => false

/-- The states of the flash path reachable from a start-up state (empty slot) by
calls of `flash_cache_write`, `flash_cache_read` and `flash_cache_flush` with
32-bit arguments. -/
inductive Reachable : State → Prop where
  | init (s : State) : s.cache_addr = FLASH_CACHE_INVALID_ADDR → Reachable s
  | write (s s' : State) (dst : Nat) (src : Buf) (len ret : Nat) :
      Reachable s → dst < 2 ^ 32 → len < 2 ^ 32 →
      flash_cache_write s dst src len = some (s', ret) → Reachable s'
  | read (s s' : State) (dst : Buf) (addr count : Nat) (d : Buf) :
      Reachable s → flash_cache_read s dst addr count = some (s', d) → Reachable s'
  | flush (s : State) : Reachable s → Reachable (flash_cache_flush s)

/-! ## Concrete states -/

/-- A device filled with zero bytes on which every operation succeeds. -/
def zeroFlash : Flash := { mem := fun _ => 0, log := [], ok := fun _ => true }

/-- A device filled with zero bytes on which every operation reports failure. -/
def failingFlash : Flash := { mem := fun _ => 0, log := [], ok := fun _ => false }

/-- The start-up state over a given device: empty slot. -/
def emptyState (f : Flash) : State :=
  { cache_addr := FLASH_CACHE_INVALID_ADDR, cache_buf := fun _ => 0, flash := f }

/-- A slot resident at `base` whose buffer holds `0xAA` everywhere. -/
def dirtyState (base : Nat) (f : Flash) : State :=
  { cache_addr := base, cache_buf := fun _ => 0xAA, flash := f }

/-! ## Arithmetic facts -/

theorem page_offset_of_eq (a : Nat) : page_offset_of a = a % 4096 := by
  have h := Nat.and_pow_two_sub_one_eq_mod a 12
  simpa [page_offset_of, FLASH_CACHE_SIZE] using h

theorem testBit_of_lt_u32 {a : Nat} (ha : a < 2 ^ 32) {i : Nat} (hi : 32 ≤ i) :
    a.testBit i = false :=
  Nat.testBit_lt_two_pow (Nat.lt_of_lt_of_le ha (Nat.pow_le_pow_right (by decide) hi))

theorem page_addr_of_eq (a : Nat) (ha : a < 2 ^ 32) : page_addr_of a = a - a % 4096 := by
  have hmask : (0xffffffff - (FLASH_CACHE_SIZE - 1) : Nat) = 2 ^ 12 * (2 ^ 20 - 1) := by
    simp [FLASH_CACHE_SIZE]
  have hrhs : a - a % 4096 = 2 ^ 12 * (a >>> 12) := by
    rw [Nat.shiftRight_eq_div_pow]
    have := Nat.div_add_mod a (2 ^ 12)
    norm_num at this ⊢
    omega
  rw [hrhs, page_addr_of, hmask]
  apply Nat.eq_of_testBit_eq
  intro i
  rw [Nat.testBit_and, Nat.testBit_mul_pow_two, Nat.testBit_mul_pow_two,
    Nat.testBit_two_pow_sub_one, Nat.testBit_shiftRight]
  by_cases h12 : i ≥ 12
  · have e : 12 + (i - 12) = i := by omega
    rw [e]
    by_cases h32 : i < 32
    · have : i - 12 < 20 := by omega
      simp [h12, this]
    · have hf := testBit_of_lt_u32 ha (Nat.le_of_not_lt h32)
      simp [hf]
  · simp [h12]

theorem page_addr_of_add_offset (a : Nat) (ha : a < 2 ^ 32) :
    page_addr_of a + page_offset_of a = a := by
  rw [page_addr_of_eq a ha, page_offset_of_eq]
  have := Nat.mod_le a 4096
  omega

theorem page_addr_of_aligned (a : Nat) (ha : a < 2 ^ 32) : page_addr_of a % 4096 = 0 := by
  rw [page_addr_of_eq a ha]; omega

theorem page_addr_of_ne_invalid (a : Nat) (ha : a < 2 ^ 32) :
    page_addr_of a ≠ FLASH_CACHE_INVALID_ADDR := by
  have := page_addr_of_aligned a ha
  intro h
  rw [h] at this
  simp [FLASH_CACHE_INVALID_ADDR] at this

theorem chunk_bytes_eq (dst remain : Nat) :
    chunk_bytes dst remain = min remain (4096 - dst % 4096) := by
  unfold chunk_bytes
  rw [page_offset_of_eq]
  have h := Nat.mod_lt dst (show 0 < 4096 by decide)
  simp only [u32sub, U32, FLASH_CACHE_SIZE]
  have e : (dst % 4096) % 2 ^ 32 = dst % 4096 := Nat.mod_eq_of_lt (by omega)
  rw [e]
  have e2 : (4096 + 2 ^ 32 - dst % 4096) % 2 ^ 32 = 4096 - dst % 4096 := by omega
  rw [e2]

/-! ## Flush -/

theorem flush_empty (s : State) (h : s.cache_addr = FLASH_CACHE_INVALID_ADDR) :
    flash_cache_flush s = s := by
  simp [flash_cache_flush, h]

theorem flush_cache_addr (s : State) :
    (flash_cache_flush s).cache_addr = FLASH_CACHE_INVALID_ADDR := by
  unfold flash_cache_flush
  split
  · assumption
  · rfl

theorem flush_cache_buf (s : State) : (flash_cache_flush s).cache_buf = s.cache_buf := by
  unfold flash_cache_flush
  split <;> rfl

theorem flush_log_populated (s : State) (h : s.cache_addr ≠ FLASH_CACHE_INVALID_ADDR) :
    (flash_cache_flush s).flash.log = s.flash.log ++ flush_ops s := by
  simp [flash_cache_flush, h, Flash.eraseSector, Flash.writeBuffer, flush_ops]

theorem flush_ok (s : State) : (flash_cache_flush s).flash.ok = s.flash.ok := by
  unfold flash_cache_flush
  split <;> rfl

/-- C4: on an empty slot `flash_cache_flush` changes nothing (so it issues no device
operation); on a slot populated with base `b` it issues exactly the erase of sector
`b / 4096` followed by the program of the 4096-byte buffer at `b`, and the slot
is empty afterwards. -/
theorem flash_cache_flush_semantics (s : State) :
    (s.cache_addr = FLASH_CACHE_INVALID_ADDR → flash_cache_flush s = s) ∧
    (s.cache_addr ≠ FLASH_CACHE_INVALID_ADDR →
      (flash_cache_flush s).flash.log =
        s.flash.log ++ [FlashOp.eraseSector (s.cache_addr / 4096),
                        FlashOp.writeBuffer s.cache_addr s.cache_buf 4096] ∧
      (flash_cache_flush s).cache_addr = FLASH_CACHE_INVALID_ADDR) :=
  ⟨flush_empty s, fun h => ⟨flush_log_populated s h, flush_cache_addr s⟩⟩

/-- Witness of C4 on the start-up state and on a slot resident at page 0. -/
theorem flash_cache_flush_semantics_witness :
    flash_cache_flush (emptyState zeroFlash) = emptyState zeroFlash ∧
    ((flash_cache_flush (dirtyState 0 zeroFlash)).flash.log =
        (dirtyState 0 zeroFlash).flash.log ++
          [FlashOp.eraseSector ((dirtyState 0 zeroFlash).cache_addr / 4096),
           FlashOp.writeBuffer (dirtyState 0 zeroFlash).cache_addr
             (dirtyState 0 zeroFlash).cache_buf 4096] ∧
      (flash_cache_flush (dirtyState 0 zeroFlash)).cache_addr = FLASH_CACHE_INVALID_ADDR) :=
  ⟨(flash_cache_flush_semantics (emptyState zeroFlash)).1 rfl,
   (flash_cache_flush_semantics (dirtyState 0 zeroFlash)).2 (by decide)⟩

/-- C5: flushing twice gives the same cache and device state as flushing once; the
first call issues the erase and program once when the slot was populated and nothing
when it was empty, and the second call adds no device operation. -/
theorem flash_cache_flush_idempotent (s : State) :
    flash_cache_flush (flash_cache_flush s) = flash_cache_flush s ∧
    (flash_cache_flush s).flash.log =
      s.flash.log ++ (if s.cache_addr = FLASH_CACHE_INVALID_ADDR then [] else flush_ops s) ∧
    (flash_cache_flush (flash_cache_flush s)).flash.log = (flash_cache_flush s).flash.log := by
  have h2 := flush_empty (flash_cache_flush s) (flush_cache_addr s)
  refine ⟨h2, ?_, by rw [h2]⟩
  by_cases h : s.cache_addr = FLASH_CACHE_INVALID_ADDR
  · simp [flush_empty s h, h]
  · simp [flush_log_populated s h, h]

/-! ## Activity hint -/

/-- C8, at a failing input: `last_access_ms = 2^32 - 50`, `millis() = 2^32 - 40` and
`timeout = 100`. The last access is 10 ms old, inside the window, yet `recentUSB`
answers false, because `last_access_ms + timeout` wraps around to 50. -/
theorem recentUSB_sum_overflow :
    (2 ^ 32 - 50 : Nat) ≤ 2 ^ 32 - 40 ∧ (2 ^ 32 - 40 : Nat) - (2 ^ 32 - 50) ≤ 100 ∧
    u32add (2 ^ 32 - 50) 100 = 50 ∧
    recentUSB (2 ^ 32 - 50) (2 ^ 32 - 40) 100 = false := by
  decide

/-- C9: whenever the recorded timestamp is greater than the current time,
`recentUSB` answers false, for every timeout. -/
theorem recentUSB_rollover_guard (last_access_ms curr_time timeout : Nat)
    (h : last_access_ms > curr_time) :
    recentUSB last_access_ms curr_time timeout = false := by
  simp [recentUSB, h]

/-- Witness of C9: timestamp 5000, current time 12 (after a rollover), timeout 100. -/
theorem recentUSB_rollover_guard_witness :
    (5000 : Nat) > 12 ∧ recentUSB 5000 12 100 = false :=
  ⟨by decide, recentUSB_rollover_guard 5000 12 100 (by decide)⟩

/-! ## Flush and device failures -/

/-- C10 fails on the code: on a slot resident at page 0 over a device whose erase
and program both report failure, `flash_cache_flush` leaves the slot empty instead
of resident at page 0. -/
theorem flush_failure_drops_slot :
    (dirtyState 0 failingFlash).cache_addr ≠ FLASH_CACHE_INVALID_ADDR ∧
    flush_erase_ok (dirtyState 0 failingFlash) = false ∧
    flush_program_ok (dirtyState 0 failingFlash) = false ∧
    (flash_cache_flush (dirtyState 0 failingFlash)).cache_addr ≠
      (dirtyState 0 failingFlash).cache_addr := by
  decide

/-- C10 as amended: `flash_cache_flush` does not look at what the device reports.
On a populated slot whose erase or program reports failure it still issues both
operations once and empties the slot, so that a later flush issues no device
operation. -/
theorem flush_failure_empties_slot (s : State)
    (hpop : s.cache_addr ≠ FLASH_CACHE_INVALID_ADDR)
    (hfail : flush_erase_ok s = false ∨ flush_program_ok s = false) :
    (flash_cache_flush s).cache_addr = FLASH_CACHE_INVALID_ADDR ∧
    (flash_cache_flush s).flash.log = s.flash.log ++ flush_ops s ∧
    (flash_cache_flush (flash_cache_flush s)).flash.log = (flash_cache_flush s).flash.log := by
  have _ := hfail
  exact ⟨flush_cache_addr s, flush_log_populated s hpop,
    by rw [flush_empty (flash_cache_flush s) (flush_cache_addr s)]⟩

/-- Witness of the amended C10: a slot resident at page 0 over a device whose every
operation fails. -/
theorem flush_failure_empties_slot_witness :
    (dirtyState 0 failingFlash).cache_addr ≠ FLASH_CACHE_INVALID_ADDR ∧
    (flush_erase_ok (dirtyState 0 failingFlash) = false ∨
      flush_program_ok (dirtyState 0 failingFlash) = false) ∧
    ((flash_cache_flush (dirtyState 0 failingFlash)).cache_addr = FLASH_CACHE_INVALID_ADDR ∧
     (flash_cache_flush (dirtyState 0 failingFlash)).flash.log =
       (dirtyState 0 failingFlash).flash.log ++ flush_ops (dirtyState 0 failingFlash) ∧
     (flash_cache_flush (flash_cache_flush (dirtyState 0 failingFlash))).flash.log =
       (flash_cache_flush (dirtyState 0 failingFlash)).flash.log) :=
  ⟨by decide, Or.inl (by decide),
   flush_failure_empties_slot (dirtyState 0 failingFlash) (by decide) (Or.inl (by decide))⟩

/-! ## The write loop terminates -/

theorem u32sub_eq {a b : Nat} (hb : b ≤ a) (ha : a < 2 ^ 32) : u32sub a b = a - b := by
  unfold u32sub U32
  have e : b % 2 ^ 32 = b := Nat.mod_eq_of_lt (by omega)
  rw [e]
  omega

theorem u32add_eq {a b : Nat} (h : a + b < 2 ^ 32) : u32add a b = a + b := by
  unfold u32add U32
  exact Nat.mod_eq_of_lt h

theorem chunk_bytes_bounds (dst remain : Nat) (hr : 0 < remain) :
    1 ≤ chunk_bytes dst remain ∧ chunk_bytes dst remain ≤ 4096 ∧
    chunk_bytes dst remain ≤ remain ∧ dst % 4096 + chunk_bytes dst remain ≤ 4096 := by
  rw [chunk_bytes_eq]
  have h := Nat.mod_lt dst (show 0 < 4096 by decide)
  omega

theorem write_loop_zero (fuel : Nat) (s : State) (dst : Nat) (src8 : Buf) :
    flash_cache_write_loop fuel s dst src8 0 = some (s, 0) := by
  unfold flash_cache_write_loop
  simp

theorem write_loop_succ (fuel : Nat) (s : State) (dst : Nat) (src8 : Buf) (remain : Nat)
    (hr : remain ≠ 0) :
    flash_cache_write_loop (fuel + 1) s dst src8 remain =
      flash_cache_write_loop fuel (write_step s dst src8 remain).1
        (write_step s dst src8 remain).2.1 (write_step s dst src8 remain).2.2.1
        (write_step s dst src8 remain).2.2.2 := by
  rw [flash_cache_write_loop]
  simp [hr]

theorem write_step_remain (s : State) (dst : Nat) (src8 : Buf) (remain : Nat)
    (hr : 0 < remain) (hlt : remain < 2 ^ 32) :
    (write_step s dst src8 remain).2.2.2 = remain - chunk_bytes dst remain := by
  have hb := chunk_bytes_bounds dst remain hr
  simp only [write_step]
  exact u32sub_eq hb.2.2.1 hlt

theorem write_loop_terminates (fuel : Nat) :
    ∀ (s : State) (dst : Nat) (src8 : Buf) (remain : Nat), remain < 2 ^ 32 → remain ≤ fuel →
      ∃ s', flash_cache_write_loop fuel s dst src8 remain = some (s', 0) := by
  induction fuel with
  | zero =>
    intro s dst src8 remain _ hle
    have h0 : remain = 0 := by omega
    subst h0
    exact ⟨s, write_loop_zero 0 s dst src8⟩
  | succ n ih =>
    intro s dst src8 remain hlt hle
    by_cases h0 : remain = 0
    · subst h0
      exact ⟨s, write_loop_zero _ s dst src8⟩
    · rw [write_loop_succ n s dst src8 remain h0]
      have hpos : 0 < remain := Nat.pos_of_ne_zero h0
      have hb := chunk_bytes_bounds dst remain hpos
      have hrem := write_step_remain s dst src8 remain hpos hlt
      apply ih
      · rw [hrem]; omega
      · rw [hrem]; omega

/-- C7: in every iteration of the loop of `flash_cache_write` the chunk has at least
one and at most 4096 bytes and `remain` strictly decreases; with at least `len`
iterations allowed the loop ends with `remain = 0`; and `flash_cache_write` returns
`len`, for every destination address, source and 32-bit length. -/
theorem flash_cache_write_returns_len (s : State) (dst : Nat) (src : Buf) (len : Nat)
    (hlen : len < 2 ^ 32) :
    (∀ d remain, 0 < remain → remain < 2 ^ 32 →
      1 ≤ chunk_bytes d remain ∧ chunk_bytes d remain ≤ 4096 ∧
      (write_step s d src remain).2.2.2 < remain) ∧
    (∀ fuel, len ≤ fuel → ∃ s', flash_cache_write_loop fuel s dst src len = some (s', 0)) ∧
    (∃ s', flash_cache_write s dst src len = some (s', len)) := by
  refine ⟨?_, ?_, ?_⟩
  · intro d remain hr hlt
    have hb := chunk_bytes_bounds d remain hr
    refine ⟨hb.1, hb.2.1, ?_⟩
    rw [write_step_remain s d src remain hr hlt]
    omega
  · intro fuel hf
    exact write_loop_terminates fuel s dst src len hlen hf
  · obtain ⟨s', hs'⟩ := write_loop_terminates len s dst src len hlen (Nat.le_refl _)
    refine ⟨s', ?_⟩
    simp [flash_cache_write, hs', u32sub, U32]
    omega

/-- Witness of C7: 50 bytes written at address 100 from the start-up state. -/
theorem flash_cache_write_returns_len_witness :
    (50 : Nat) < 2 ^ 32 ∧
    ((∀ d remain, 0 < remain → remain < 2 ^ 32 →
      1 ≤ chunk_bytes d remain ∧ chunk_bytes d remain ≤ 4096 ∧
      (write_step (emptyState zeroFlash) d (fun _ => 0xAA) remain).2.2.2 < remain) ∧
    (∀ fuel, 50 ≤ fuel →
      ∃ s', flash_cache_write_loop fuel (emptyState zeroFlash) 100 (fun _ => 0xAA) 50 =
        some (s', 0)) ∧
    (∃ s', flash_cache_write (emptyState zeroFlash) 100 (fun _ => 0xAA) 50 = some (s', 50))) :=
  ⟨by decide, flash_cache_write_returns_len (emptyState zeroFlash) 100 (fun _ => 0xAA) 50
    (by decide)⟩

/-! ## Overlay reads -/

theorem toU32_ofNat (n : Nat) (h : n < 2 ^ 32) : toU32 (n : Int) = n := by
  unfold toU32 U32
  omega

theorem toInt32_small (n : Nat) (h : n < 2 ^ 31) : toInt32 n = (n : Int) := by
  unfold toInt32 U32
  have e : n % 2 ^ 32 = n := Nat.mod_eq_of_lt (by omega)
  rw [e, if_pos h]

theorem toInt32_big (n : Nat) (h1 : 2 ^ 31 ≤ n) (h2 : n < 2 ^ 32) :
    toInt32 n = (n : Int) - 2 ^ 32 := by
  unfold toInt32 U32
  have e : n % 2 ^ 32 = n := Nat.mod_eq_of_lt h2
  rw [e]
  have : ¬ n < 2 ^ 31 := by omega
  rw [if_neg this]
  norm_num

/-- The offsets of the overlay when the request starts below the cached page. -/
theorem read_offsets_below (b addr count : Nat) (hb : b < 2 ^ 32) (hlt : addr < b)
    (hd : b - addr < 2 ^ 31) (hc : count < 2 ^ 32) (hover : b - addr ≤ count) :
    read_src_off b addr = 0 ∧ read_dst_off b addr = ((b - addr : Nat) : Int) ∧
    read_cache_bytes b addr count = ((min 4096 (count - (b - addr)) : Nat) : Int) := by
  have h0 : read_dst_off0 b addr = ((b - addr : Nat) : Int) := by
    unfold read_dst_off0
    rw [u32sub_eq (Nat.le_of_lt hlt) hb, toInt32_small _ hd]
  have hs : read_src_off b addr = 0 := by
    unfold read_src_off
    rw [h0]
    have : ¬ (((b - addr : Nat) : Int) < 0) := by omega
    simp [this]
  have hdo : read_dst_off b addr = ((b - addr : Nat) : Int) := by
    unfold read_dst_off
    rw [h0]
    have : ¬ (((b - addr : Nat) : Int) < 0) := by omega
    simp [this]
  refine ⟨hs, hdo, ?_⟩
  unfold read_cache_bytes
  rw [hs, hdo, toU32_ofNat _ (by omega), u32sub_eq hover hc]
  have e : toU32 ((FLASH_CACHE_SIZE : Int) - 0) = 4096 := by
    simp [FLASH_CACHE_SIZE, toU32, U32]
  rw [e, toInt32_small _ (by omega)]

/-- The offsets of the overlay when the request starts inside the cached page. -/
theorem read_offsets_inside (b addr count : Nat) (haddr : addr < 2 ^ 32) (hle : b ≤ addr)
    (hin : addr - b < 4096) (hc : count < 2 ^ 32) :
    read_src_off b addr = ((addr - b : Nat) : Int) ∧ read_dst_off b addr = 0 ∧
    read_cache_bytes b addr count = ((min (4096 - (addr - b)) count : Nat) : Int) := by
  have h0 : read_dst_off0 b addr = - ((addr - b : Nat) : Int) := by
    unfold read_dst_off0
    by_cases he : addr = b
    · subst he
      rw [u32sub_eq (Nat.le_refl _) haddr, Nat.sub_self, toInt32_small 0 (by decide)]
      simp
    · have e : u32sub b addr = 2 ^ 32 - (addr - b) := by
        unfold u32sub U32
        have : addr % 2 ^ 32 = addr := Nat.mod_eq_of_lt haddr
        rw [this]
        omega
      rw [e, toInt32_big _ (by omega) (by omega)]
      omega
  have hs : read_src_off b addr = ((addr - b : Nat) : Int) := by
    unfold read_src_off
    rw [h0]
    by_cases he : addr = b
    · subst he; simp
    · have : (-((addr - b : Nat) : Int) < 0) := by omega
      simp only [this, if_true, neg_neg]
      unfold wrapInt32
      rw [toU32_ofNat _ (by omega), toInt32_small _ (by omega)]
  have hdo : read_dst_off b addr = 0 := by
    unfold read_dst_off
    rw [h0]
    by_cases he : addr = b
    · subst he; simp
    · have : (-((addr - b : Nat) : Int) < 0) := by omega
      simp [this]
  refine ⟨hs, hdo, ?_⟩
  unfold read_cache_bytes
  rw [hs, hdo]
  have e1 : toU32 ((FLASH_CACHE_SIZE : Int) - ((addr - b : Nat) : Int)) = 4096 - (addr - b) := by
    have : ((FLASH_CACHE_SIZE : Int) - ((addr - b : Nat) : Int)) = ((4096 - (addr - b) : Nat) : Int) := by
      simp only [FLASH_CACHE_SIZE]; omega
    rw [this, toU32_ofNat _ (by omega)]
  have e2 : toU32 0 = 0 := by simp [toU32]
  rw [e1, e2, u32sub_eq (Nat.zero_le _) hc, toInt32_small _ (by omega)]
  simp

theorem readBuffer_buf (f : Flash) (hf : f.Healthy) (addr : Nat) (dst : Buf) (off len : Nat) :
    (f.readBuffer addr dst off len).2.2 = memcpy dst off (fun i => f.mem (addr + i)) len := by
  simp [Flash.readBuffer, hf f.log.length]

theorem readBuffer_mem (f : Flash) (addr : Nat) (dst : Buf) (off len : Nat) :
    (f.readBuffer addr dst off len).2.1.mem = f.mem := rfl

theorem readBuffer_ok (f : Flash) (addr : Nat) (dst : Buf) (off len : Nat) :
    (f.readBuffer addr dst off len).2.1.ok = f.ok := rfl

theorem readBuffer_healthy (f : Flash) (hf : f.Healthy) (addr : Nat) (dst : Buf) (off len : Nat) :
    (f.readBuffer addr dst off len).2.1.Healthy := hf

theorem read_coherent_direct (s : State) (dst : Buf) (addr count : Nat)
    (hok : s.flash.Healthy) (hno : ¬ read_overlaps s.cache_addr addr count)
    (hdev : ∀ i, i < count → logical_content s (addr + i) = s.flash.mem (addr + i)) :
    ∃ r, flash_cache_read s dst addr count = some r ∧
      (∀ i, i < count → r.2 i = logical_content s (addr + i)) ∧
      (∀ i, count ≤ i → r.2 i = dst i) := by
  refine ⟨_, by rw [flash_cache_read, if_neg hno], ?_, ?_⟩
  · intro i hi
    simp only [readBuffer_buf _ hok, memcpy, hdev i hi]
    simp [hi]
  · intro i hi
    simp only [readBuffer_buf _ hok, memcpy]
    have : ¬ (0 ≤ i ∧ i < 0 + count) := by omega
    rw [if_neg this]

theorem memcpy_zero_len (dst : Buf) (off : Nat) (src : Buf) : memcpy dst off src 0 = dst := by
  funext i
  have : ¬ (off ≤ i ∧ i < off + 0) := by omega
  simp only [memcpy, if_neg this]

/-- The destination buffer produced by the overlap branch of `flash_cache_read`, on
a device whose reads succeed, from the natural-number values of the offsets. -/
theorem read_overlap_buf (s : State) (dst : Buf) (addr count D S C : Nat)
    (hok : s.flash.Healthy) (hov : read_overlaps s.cache_addr addr count)
    (hdef : read_defined s.cache_addr addr count)
    (hdo : read_dst_off s.cache_addr addr = (D : Int))
    (hs : read_src_off s.cache_addr addr = (S : Int))
    (hcb : read_cache_bytes s.cache_addr addr count = (C : Int))
    (hDC : D + C < 2 ^ 32) :
    ∃ r, flash_cache_read s dst addr count = some r ∧
      r.2 = (if D + C < count then
               memcpy (memcpy (memcpy dst 0 (fun i => s.flash.mem (addr + i)) D) D
                  (s.cache_buf.shift S) C) (D + C)
                  (fun i => s.flash.mem (u32add addr (D + C) + i)) (u32sub count (D + C))
             else memcpy (memcpy dst 0 (fun i => s.flash.mem (addr + i)) D) D
                  (s.cache_buf.shift S) C) := by
  refine ⟨_, by rw [flash_cache_read, if_pos hov, if_pos hdef], ?_⟩
  simp only [hdo, hs, hcb]
  simp only [← Nat.cast_add, Int.toNat_ofNat, toU32_ofNat _ hDC,
    toU32_ofNat D (Nat.lt_of_le_of_lt (Nat.le_add_right D C) hDC)]
  by_cases hD : D = 0
  · subst hD
    have h0 : ¬ (((0 : Nat) : Int) ≠ 0) := by simp
    simp only [if_neg h0, memcpy_zero_len]
    by_cases hlt : 0 + C < count
    · simp only [if_pos hlt, readBuffer_buf _ hok]
    · simp only [if_neg hlt]
  · have h0 : ((D : Nat) : Int) ≠ 0 := by exact_mod_cast hD
    simp only [if_pos h0, readBuffer_buf _ hok]
    by_cases hlt : D + C < count
    · simp only [if_pos hlt]
      rw [readBuffer_buf _ (readBuffer_healthy _ hok _ _ _ _), readBuffer_mem]
    · simp only [if_neg hlt]

theorem read_coherent_below (s : State) (dst : Buf) (addr count : Nat)
    (hok : s.flash.Healthy) (hinv : s.cache_addr ≠ FLASH_CACHE_INVALID_ADDR)
    (hb : s.cache_addr + 4096 < 2 ^ 32) (hlt : addr < s.cache_addr)
    (hend : addr + count < 2 ^ 32) (hc : count < 2 ^ 31) (hover : s.cache_addr < addr + count) :
    ∃ r, flash_cache_read s dst addr count = some r ∧
      (∀ i, i < count → r.2 i = logical_content s (addr + i)) ∧
      (∀ i, count ≤ i → r.2 i = dst i) := by
  obtain ⟨hs, hdo, hcb⟩ := read_offsets_below s.cache_addr addr count (by omega) hlt
    (by omega) (by omega) (by omega)
  have hov : read_overlaps s.cache_addr addr count := by
    refine ⟨hinv, ?_, ?_⟩
    · rw [u32add_eq hend]; omega
    · rw [u32add_eq (by simpa [FLASH_CACHE_SIZE] using hb)]
      simp only [FLASH_CACHE_SIZE]; omega
  have hdef : read_defined s.cache_addr addr count := by
    unfold read_defined
    rw [hs, hdo, hcb]
    simp only [FLASH_CACHE_SIZE]
    omega
  have hcop : read_dst_off s.cache_addr addr + read_cache_bytes s.cache_addr addr count =
      ((s.cache_addr - addr + min 4096 (count - (s.cache_addr - addr)) : Nat) : Int) := by
    rw [hdo, hcb]; push_cast; rfl
  have hne : read_dst_off s.cache_addr addr ≠ 0 := by rw [hdo]; omega
  obtain ⟨r, hr, hbuf⟩ := read_overlap_buf s dst addr count _ 0 _ hok hov hdef hdo
    (by rw [hs]; rfl) hcb (by omega)
  have ha : u32add addr (s.cache_addr - addr + min 4096 (count - (s.cache_addr - addr))) =
      addr + (s.cache_addr - addr + min 4096 (count - (s.cache_addr - addr))) :=
    u32add_eq (by omega)
  have hsub : u32sub count (s.cache_addr - addr + min 4096 (count - (s.cache_addr - addr))) =
      count - (s.cache_addr - addr + min 4096 (count - (s.cache_addr - addr))) :=
    u32sub_eq (by omega) (by omega)
  rw [ha, hsub] at hbuf
  refine ⟨r, hr, ?_, ?_⟩
  · intro i hi
    rw [hbuf]
    simp only [ite_apply, memcpy, logical_content, Buf.shift]
    split_ifs <;> first | omega | rfl | (congr 1; omega)
  · intro i hi
    rw [hbuf]
    simp only [ite_apply, memcpy]
    split_ifs <;> omega

theorem read_coherent_inside (s : State) (dst : Buf) (addr count : Nat)
    (hok : s.flash.Healthy) (hinv : s.cache_addr ≠ FLASH_CACHE_INVALID_ADDR)
    (hb : s.cache_addr + 4096 < 2 ^ 32) (hle : s.cache_addr ≤ addr)
    (hin : addr < s.cache_addr + 4096) (hc : count < 2 ^ 32) :
    ∃ r, flash_cache_read s dst addr count = some r ∧
      (∀ i, i < count → r.2 i = logical_content s (addr + i)) ∧
      (∀ i, count ≤ i → r.2 i = dst i) := by
  obtain ⟨hs, hdo, hcb⟩ := read_offsets_inside s.cache_addr addr count (by omega) hle
    (by omega) hc
  have hov : read_overlaps s.cache_addr addr count := by
    refine ⟨hinv, ?_, ?_⟩
    · omega
    · rw [u32add_eq (by simpa [FLASH_CACHE_SIZE] using hb)]
      simp only [FLASH_CACHE_SIZE]; omega
  have hdef : read_defined s.cache_addr addr count := by
    unfold read_defined
    rw [hs, hdo, hcb]
    simp only [FLASH_CACHE_SIZE]
    omega
  obtain ⟨r, hr, hbuf⟩ := read_overlap_buf s dst addr count 0 _ _ hok hov hdef
    (by rw [hdo]; rfl) hs hcb (by omega)
  have ha : u32add addr (0 + min (4096 - (addr - s.cache_addr)) count) =
      addr + (0 + min (4096 - (addr - s.cache_addr)) count) :=
    u32add_eq (by omega)
  have hsub : u32sub count (0 + min (4096 - (addr - s.cache_addr)) count) =
      count - (0 + min (4096 - (addr - s.cache_addr)) count) :=
    u32sub_eq (by omega) (by omega)
  rw [ha, hsub] at hbuf
  refine ⟨r, hr, ?_, ?_⟩
  · intro i hi
    rw [hbuf]
    simp only [ite_apply, memcpy, logical_content, Buf.shift]
    split_ifs <;> first | omega | rfl | (congr 1; omega)
  · intro i hi
    rw [hbuf]
    simp only [ite_apply, memcpy]
    split_ifs <;> omega

/-- C1 fails on the code: with the slot resident at the last page `0xfffff000` (buffer
full of `0xAA`, device full of zeros) the one-byte request at `0xfffff000` lies inside
the cached page, yet `flash_cache_read` returns the device byte 0, because
`cache_addr + FLASH_CACHE_SIZE` wraps around to 0 in the overlap test. -/
theorem flash_cache_read_top_page_incoherent :
    (dirtyState 0xfffff000 zeroFlash).cache_addr % 4096 = 0 ∧
    logical_content (dirtyState 0xfffff000 zeroFlash) (0xfffff000 + 0) = 0xAA ∧
    (flash_cache_read (dirtyState 0xfffff000 zeroFlash) (fun _ => 9) 0xfffff000 1).map
      (fun r => r.2 0) = some 0 := by
  decide

/-- Coherence of `flash_cache_read` with the logical content, for a slot that is
empty or lies below the last page, and a request inside the range of the `int`
offsets. -/
theorem read_coherent_of_slot (s : State) (dst : Buf) (addr count : Nat)
    (haddr : addr < 2 ^ 32) (hcount : count < 2 ^ 32) (hok : s.flash.Healthy)
    (hslot : s.cache_addr = FLASH_CACHE_INVALID_ADDR ∨
      (s.cache_addr + 4096 < 2 ^ 32 ∧
        (addr < s.cache_addr → addr + count < 2 ^ 32 ∧ count < 2 ^ 31))) :
    ∃ r, flash_cache_read s dst addr count = some r ∧
      (∀ i, i < count → r.2 i = logical_content s (addr + i)) ∧
      (∀ i, count ≤ i → r.2 i = dst i) := by
  have _ := haddr
  rcases hslot with hemp | ⟨hb, hreq⟩
  · apply read_coherent_direct s dst addr count hok
    · intro h; exact h.1 hemp
    · intro i _
      simp [logical_content, hemp]
  · by_cases hinv : s.cache_addr = FLASH_CACHE_INVALID_ADDR
    · apply read_coherent_direct s dst addr count hok
      · intro h; exact h.1 hinv
      · intro i _
        simp [logical_content, hinv]
    · by_cases hlt : addr < s.cache_addr
      · obtain ⟨hend, hc⟩ := hreq hlt
        by_cases hover : s.cache_addr < addr + count
        · exact read_coherent_below s dst addr count hok hinv hb hlt hend hc hover
        · apply read_coherent_direct s dst addr count hok
          · intro h
            apply h.2.1
            rw [u32add_eq hend]
            omega
          · intro i hi
            have : ¬ (s.cache_addr ≠ FLASH_CACHE_INVALID_ADDR ∧ s.cache_addr ≤ addr + i ∧
                addr + i < s.cache_addr + 4096) := by omega
            simp only [logical_content, if_neg this]
      · by_cases hin : addr < s.cache_addr + 4096
        · exact read_coherent_inside s dst addr count hok hinv hb (by omega) hin hcount
        · apply read_coherent_direct s dst addr count hok
          · intro h
            apply h.2.2
            rw [u32add_eq (by simpa [FLASH_CACHE_SIZE] using hb)]
            simp only [FLASH_CACHE_SIZE]
            omega
          · intro i hi
            have : ¬ (s.cache_addr ≠ FLASH_CACHE_INVALID_ADDR ∧ s.cache_addr ≤ addr + i ∧
                addr + i < s.cache_addr + 4096) := by omega
            simp only [logical_content, if_neg this]

/-- C1 as amended: on a device whose reads succeed, when the slot is empty, or is
populated with a base `b` such that `b + 4096 < 2^32` and, for a request starting
below `b`, the request ends below `2^32` and has fewer than `2^31` bytes,
`flash_cache_read` is defined and fills `dst[0, count)` with the logical content at
`addr + i`: the buffer byte `addr + i - b` inside `[b, b + 4096)` and the device
byte outside. The rest of `dst` is left alone. -/
theorem flash_cache_read_coherent (s : State) (dst : Buf) (addr count : Nat)
    (haddr : addr < 2 ^ 32) (hcount : count < 2 ^ 32) (hok : s.flash.Healthy)
    (hslot : s.cache_addr = FLASH_CACHE_INVALID_ADDR ∨
      (s.cache_addr + 4096 < 2 ^ 32 ∧
        (addr < s.cache_addr → addr + count < 2 ^ 32 ∧ count < 2 ^ 31))) :
    ∃ r, flash_cache_read s dst addr count = some r ∧
      (∀ i, i < count → r.2 i = logical_content s (addr + i)) ∧
      (∀ i, count ≤ i → r.2 i = dst i) :=
  read_coherent_of_slot s dst addr count haddr hcount hok hslot

/-- Witness of the amended C1, the scenario of the specification: slot resident at
page 0, request of 200 bytes at address 4000. -/
theorem flash_cache_read_coherent_witness :
    (4000 : Nat) < 2 ^ 32 ∧ (200 : Nat) < 2 ^ 32 ∧ (dirtyState 0 zeroFlash).flash.Healthy ∧
    ∃ r, flash_cache_read (dirtyState 0 zeroFlash) (fun _ => 9) 4000 200 = some r ∧
      (∀ i, i < 200 → r.2 i = logical_content (dirtyState 0 zeroFlash) (4000 + i)) ∧
      (∀ i, 200 ≤ i → r.2 i = (fun _ => 9) i) :=
  ⟨by decide, by decide, fun _ => rfl,
   flash_cache_read_coherent (dirtyState 0 zeroFlash) (fun _ => 9) 4000 200 (by decide)
     (by decide) (fun _ => rfl)
     (Or.inr ⟨by decide, fun h => absurd h (by decide)⟩)⟩

/-! ## Eviction on a page switch -/

theorem page_addr_of_page (p : Nat) (hp : p < 2 ^ 32) (hal : p % 4096 = 0) :
    page_addr_of p = p := by
  rw [page_addr_of_eq p hp]; omega

theorem switch_page_same (s : State) (p : Nat) (h : p = s.cache_addr) : switch_page s p = s := by
  simp [switch_page, h]

theorem switch_page_cache_addr (s : State) (p : Nat) : (switch_page s p).cache_addr = p := by
  unfold switch_page
  split
  · rfl
  · rename_i h
    simp only [ne_eq, not_not] at h
    exact h.symm

theorem switch_page_log_empty (s : State) (p : Nat) (he : s.cache_addr = FLASH_CACHE_INVALID_ADDR)
    (hp : p ≠ FLASH_CACHE_INVALID_ADDR) :
    (switch_page s p).flash.log = s.flash.log ++ [FlashOp.readBuffer p 4096] := by
  have hne : p ≠ s.cache_addr := by rw [he]; exact hp
  simp [switch_page, hne, flush_empty s he, Flash.readBuffer, FLASH_CACHE_SIZE]

theorem switch_page_log_evict (s : State) (p : Nat) (hne : p ≠ s.cache_addr)
    (hpop : s.cache_addr ≠ FLASH_CACHE_INVALID_ADDR) :
    (switch_page s p).flash.log =
      s.flash.log ++ [FlashOp.eraseSector (s.cache_addr / 4096),
        FlashOp.writeBuffer s.cache_addr s.cache_buf 4096, FlashOp.readBuffer p 4096] := by
  simp [switch_page, hne, Flash.readBuffer, flush_log_populated s hpop, flush_ops,
    FLASH_CACHE_SIZE]

theorem write_step_cache_addr (s : State) (d : Nat) (src8 : Buf) (r : Nat) :
    (write_step s d src8 r).1.cache_addr = page_addr_of d :=
  switch_page_cache_addr s (page_addr_of d)

/-- C6: a write whose byte range starts in page `P1` and ends in the next page
`P1 + 4096`, started with the slot empty or resident at `P1`, returns its length and
issues, after the population read of `P1` when the slot was empty, exactly: one erase
of sector `P1 / 4096`, one program at `P1` of `P1`'s buffer with the first chunk
applied, and one read of `P1 + 4096`. The second page is neither erased nor
programmed and is resident afterwards. -/
theorem flash_cache_write_single_eviction (s : State) (a : Nat) (X : Buf) (n : Nat)
    (ha : a < 2 ^ 32) (hP2 : page_addr_of a + 8192 ≤ 2 ^ 32)
    (hspan : page_addr_of a + 4096 < a + n) (hend : a + n ≤ page_addr_of a + 8192)
    (hstart : s.cache_addr = FLASH_CACHE_INVALID_ADDR ∨ s.cache_addr = page_addr_of a) :
    ∃ s', flash_cache_write s a X n = some (s', n) ∧
      s'.cache_addr = page_addr_of a + 4096 ∧
      s'.flash.log =
        s.flash.log ++
          (if s.cache_addr = FLASH_CACHE_INVALID_ADDR
           then [FlashOp.readBuffer (page_addr_of a) 4096] else []) ++
          [FlashOp.eraseSector (page_addr_of a / 4096),
           FlashOp.writeBuffer (page_addr_of a)
             (memcpy
               (if s.cache_addr = FLASH_CACHE_INVALID_ADDR
                then (s.flash.readBuffer (page_addr_of a) s.cache_buf 0 4096).2.2
                else s.cache_buf)
               (a % 4096) X (4096 - a % 4096))
             4096,
           FlashOp.readBuffer (page_addr_of a + 4096) 4096] := by
  have hP1 := page_addr_of_eq a ha
  have hal := page_addr_of_aligned a ha
  have hinv := page_addr_of_ne_invalid a ha
  have hmod := Nat.mod_lt a (show 0 < 4096 by decide)
  have hmodle := Nat.mod_le a 4096
  have hw1 : chunk_bytes a n = 4096 - a % 4096 := by rw [chunk_bytes_eq]; omega
  obtain ⟨m, rfl⟩ : ∃ m, n = m + 2 := ⟨n - 2, by omega⟩
  -- first iteration
  have hd1 : (write_step s a X (m + 2)).2.1 = page_addr_of a + 4096 := by
    show u32add a (chunk_bytes a (m + 2)) = _
    rw [hw1, u32add_eq (by omega)]; omega
  have hr1 : (write_step s a X (m + 2)).2.2.2 = m + 2 - (4096 - a % 4096) := by
    rw [write_step_remain s a X (m + 2) (by omega) (by omega), hw1]
  have hr1ne : (write_step s a X (m + 2)).2.2.2 ≠ 0 := by rw [hr1]; omega
  have hc1 : (write_step s a X (m + 2)).1.cache_addr = page_addr_of a :=
    write_step_cache_addr s a X (m + 2)
  have hb1 : (write_step s a X (m + 2)).1.cache_buf =
      memcpy (if s.cache_addr = FLASH_CACHE_INVALID_ADDR
                then (s.flash.readBuffer (page_addr_of a) s.cache_buf 0 4096).2.2
                else s.cache_buf) (a % 4096) X (4096 - a % 4096) := by
    show memcpy (switch_page s (page_addr_of a)).cache_buf (page_offset_of a) X
      (chunk_bytes a (m + 2)) = _
    rw [hw1, page_offset_of_eq]
    rcases hstart with he | hres
    · have hne : page_addr_of a ≠ s.cache_addr := by rw [he]; exact hinv
      simp [switch_page, hne, hinv, flush_empty s he, he, FLASH_CACHE_SIZE]
    · have hne : s.cache_addr ≠ FLASH_CACHE_INVALID_ADDR := by rw [hres]; exact hinv
      rw [switch_page_same s _ hres.symm, if_neg hne]
  have hl1 : (write_step s a X (m + 2)).1.flash.log =
      s.flash.log ++ (if s.cache_addr = FLASH_CACHE_INVALID_ADDR
           then [FlashOp.readBuffer (page_addr_of a) 4096] else []) := by
    show (switch_page s (page_addr_of a)).flash.log = _
    rcases hstart with he | hres
    · rw [switch_page_log_empty s _ he hinv, if_pos he]
    · have hne : s.cache_addr ≠ FLASH_CACHE_INVALID_ADDR := by rw [hres]; exact hinv
      rw [switch_page_same s _ hres.symm, if_neg hne, List.append_nil]
  -- second iteration
  have hpage2 : page_addr_of (page_addr_of a + 4096) = page_addr_of a + 4096 :=
    page_addr_of_page _ (by omega) (by omega)
  have hw2 : chunk_bytes (page_addr_of a + 4096) (m + 2 - (4096 - a % 4096)) =
      m + 2 - (4096 - a % 4096) := by
    rw [chunk_bytes_eq]; omega
  have hr2 : (write_step (write_step s a X (m + 2)).1 (page_addr_of a + 4096)
      (write_step s a X (m + 2)).2.2.1 (m + 2 - (4096 - a % 4096))).2.2.2 = 0 := by
    rw [write_step_remain _ _ _ _ (by omega) (by omega), hw2]; omega
  have hc2 : (write_step (write_step s a X (m + 2)).1 (page_addr_of a + 4096)
      (write_step s a X (m + 2)).2.2.1 (m + 2 - (4096 - a % 4096))).1.cache_addr =
      page_addr_of a + 4096 := by
    rw [write_step_cache_addr, hpage2]
  have hl2 : (write_step (write_step s a X (m + 2)).1 (page_addr_of a + 4096)
      (write_step s a X (m + 2)).2.2.1 (m + 2 - (4096 - a % 4096))).1.flash.log =
      (write_step s a X (m + 2)).1.flash.log ++
        [FlashOp.eraseSector (page_addr_of a / 4096),
         FlashOp.writeBuffer (page_addr_of a) (write_step s a X (m + 2)).1.cache_buf 4096,
         FlashOp.readBuffer (page_addr_of a + 4096) 4096] := by
    show (switch_page (write_step s a X (m + 2)).1
      (page_addr_of (page_addr_of a + 4096))).flash.log = _
    rw [hpage2, switch_page_log_evict _ _ (by rw [hc1]; omega) (by rw [hc1]; exact hinv), hc1]
  have hloop : flash_cache_write_loop (m + 2) s a X (m + 2) =
      some ((write_step (write_step s a X (m + 2)).1 (page_addr_of a + 4096)
        (write_step s a X (m + 2)).2.2.1 (m + 2 - (4096 - a % 4096))).1, 0) := by
    rw [write_loop_succ (m + 1) s a X (m + 2) (by omega), hd1, hr1,
      write_loop_succ m _ _ _ _ (by omega), hr2, write_loop_zero]
  refine ⟨_, ?_, hc2, ?_⟩
  · rw [flash_cache_write, hloop]
    simp only [Option.map_some']
    rw [u32sub_eq (Nat.zero_le _) (by omega)]
    rfl
  · rw [hl2, hl1, hb1]

/-- Witness of C6: 200 bytes written at address 4000 from the start-up state span
pages 0 and 4096. -/
theorem flash_cache_write_single_eviction_witness :
    ∃ s', flash_cache_write (emptyState zeroFlash) 4000 (fun _ => 0xAA) 200 = some (s', 200) ∧
      s'.cache_addr = page_addr_of 4000 + 4096 ∧
      s'.flash.log =
        (emptyState zeroFlash).flash.log ++
          (if (emptyState zeroFlash).cache_addr = FLASH_CACHE_INVALID_ADDR
           then [FlashOp.readBuffer (page_addr_of 4000) 4096] else []) ++
          [FlashOp.eraseSector (page_addr_of 4000 / 4096),
           FlashOp.writeBuffer (page_addr_of 4000)
             (memcpy
               (if (emptyState zeroFlash).cache_addr = FLASH_CACHE_INVALID_ADDR
                then ((emptyState zeroFlash).flash.readBuffer (page_addr_of 4000)
                  (emptyState zeroFlash).cache_buf 0 4096).2.2
                else (emptyState zeroFlash).cache_buf)
               (4000 % 4096) (fun _ => 0xAA) (4096 - 4000 % 4096))
             4096,
           FlashOp.readBuffer (page_addr_of 4000 + 4096) 4096] :=
  flash_cache_write_single_eviction (emptyState zeroFlash) 4000 (fun _ => 0xAA) 200
    (by decide) (by decide) (by decide) (by decide) (Or.inl rfl)

/-! ## Logical content -/

theorem flush_healthy (s : State) (hok : s.flash.Healthy) : (flash_cache_flush s).flash.Healthy := by
  unfold Flash.Healthy
  rw [flush_ok]
  exact hok

theorem flush_mem_populated (s : State) (hok : s.flash.Healthy)
    (hpop : s.cache_addr ≠ FLASH_CACHE_INVALID_ADDR) (x : Nat) :
    (flash_cache_flush s).flash.mem x =
      if s.cache_addr ≤ x ∧ x < s.cache_addr + 4096 then s.cache_buf (x - s.cache_addr)
      else if s.cache_addr / 4096 * 4096 ≤ x ∧ x < s.cache_addr / 4096 * 4096 + 4096 then 0xFF
      else s.flash.mem x := by
  have h1 := hok s.flash.log.length
  have h2 := hok (s.flash.log.length + 1)
  simp [flash_cache_flush, hpop, Flash.eraseSector, Flash.writeBuffer, h1, h2, memcpy,
    FLASH_CACHE_SIZE]

/-- Flushing does not change the logical content. -/
theorem flush_logical (s : State) (hinv : SlotInv s) (hok : s.flash.Healthy) (x : Nat) :
    logical_content (flash_cache_flush s) x = logical_content s x := by
  by_cases he : s.cache_addr = FLASH_CACHE_INVALID_ADDR
  · rw [flush_empty s he]
  · have hal : s.cache_addr % 4096 = 0 := by
      rcases hinv with h | h
      · exact absurd h he
      · simpa [FLASH_CACHE_SIZE] using h
    have hsec : s.cache_addr / 4096 * 4096 = s.cache_addr := by omega
    have hl : logical_content (flash_cache_flush s) x = (flash_cache_flush s).flash.mem x := by
      simp [logical_content, flush_cache_addr]
    rw [hl, flush_mem_populated s hok he, hsec]
    simp only [logical_content]
    split_ifs <;> first | rfl | omega

/-- Switching the slot to an aligned page does not change the logical content. -/
theorem switch_page_logical (s : State) (hinv : SlotInv s) (hok : s.flash.Healthy) (p : Nat)
    (x : Nat) :
    logical_content (switch_page s p) x = logical_content s x := by
  by_cases hne : p = s.cache_addr
  · rw [switch_page_same s p hne]
  · rw [← flush_logical s hinv hok x]
    have hfl := flush_healthy s hok
    have hb : (switch_page s p).cache_buf =
        memcpy (flash_cache_flush s).cache_buf 0 (fun i => (flash_cache_flush s).flash.mem (p + i))
          4096 := by
      simp only [switch_page, if_pos hne]
      exact readBuffer_buf _ hfl _ _ _ _
    have hm : (switch_page s p).flash.mem = (flash_cache_flush s).flash.mem := by
      simp only [switch_page, if_pos hne]
      rfl
    have hc := switch_page_cache_addr s p
    have hfc := flush_cache_addr s
    simp only [logical_content, hc, hb, hm, hfc, memcpy]
    split_ifs <;> first | omega | (congr 1; omega)

theorem switch_page_healthy (s : State) (hok : s.flash.Healthy) (p : Nat) :
    (switch_page s p).flash.Healthy := by
  unfold switch_page
  split
  · exact flush_healthy s hok
  · exact hok

theorem write_step_healthy (s : State) (hok : s.flash.Healthy) (d : Nat) (src8 : Buf) (r : Nat) :
    (write_step s d src8 r).1.flash.Healthy :=
  switch_page_healthy s hok (page_addr_of d)

theorem write_step_inv (s : State) (d : Nat) (hd : d < 2 ^ 32) (src8 : Buf) (r : Nat) :
    SlotInv (write_step s d src8 r).1 := by
  right
  rw [write_step_cache_addr]
  exact page_addr_of_aligned d hd

/-- One iteration of the write loop replaces the logical content on the chunk and
nowhere else. -/
theorem write_step_logical (s : State) (hinv : SlotInv s) (hok : s.flash.Healthy)
    (d : Nat) (hd : d < 2 ^ 32) (src8 : Buf) (r : Nat) (hr : 0 < r) (x : Nat) :
    logical_content (write_step s d src8 r).1 x =
      if d ≤ x ∧ x < d + chunk_bytes d r then src8 (x - d) else logical_content s x := by
  have hsw := switch_page_logical s hinv hok (page_addr_of d) x
  have hc := switch_page_cache_addr s (page_addr_of d)
  have hP := page_addr_of_eq d hd
  have hb := chunk_bytes_bounds d r hr
  have hmod := Nat.mod_le d 4096
  have hne := page_addr_of_ne_invalid d hd
  rw [← hsw]
  show logical_content
    { switch_page s (page_addr_of d) with
      cache_buf := memcpy (switch_page s (page_addr_of d)).cache_buf (page_offset_of d) src8
        (chunk_bytes d r) } x = _
  simp only [logical_content, hc, page_offset_of_eq, memcpy]
  split_ifs <;> first | omega | (congr 1; omega)

theorem write_loop_out_of_fuel (s : State) (d : Nat) (src8 : Buf) (r : Nat) (hr : r ≠ 0) :
    flash_cache_write_loop 0 s d src8 r = none := by
  rw [flash_cache_write_loop]
  simp [hr]

/-- The write loop replaces the logical content on `[d, d + r)` by the source bytes
and changes it nowhere else; it keeps the slot invariant. -/
theorem write_loop_logical (fuel : Nat) :
    ∀ (s : State) (d : Nat) (src8 : Buf) (r : Nat) (s' : State) (rem : Nat),
      SlotInv s → s.flash.Healthy → d < 2 ^ 32 → r < 2 ^ 32 → d + r ≤ 2 ^ 32 →
      flash_cache_write_loop fuel s d src8 r = some (s', rem) →
      (∀ x, logical_content s' x =
        if d ≤ x ∧ x < d + r then src8 (x - d) else logical_content s x) ∧
      SlotInv s' ∧ s'.flash.Healthy ∧ (0 < r → s'.cache_addr < d + r) := by
  induction fuel with
  | zero =>
    intro s d src8 r s' rem hinv hok _ _ _ hrun
    by_cases h0 : r = 0
    · subst h0
      rw [write_loop_zero] at hrun
      cases hrun
      refine ⟨fun x => ?_, hinv, hok, fun h => absurd h (by decide)⟩
      have : ¬ (d ≤ x ∧ x < d + 0) := by omega
      rw [if_neg this]
    · rw [write_loop_out_of_fuel s d src8 r h0] at hrun
      cases hrun
  | succ k ih =>
    intro s d src8 r s' rem hinv hok hd hr32 hend hrun
    by_cases h0 : r = 0
    · subst h0
      rw [write_loop_zero] at hrun
      cases hrun
      refine ⟨fun x => ?_, hinv, hok, fun h => absurd h (by decide)⟩
      have : ¬ (d ≤ x ∧ x < d + 0) := by omega
      rw [if_neg this]
    · have hpos : 0 < r := Nat.pos_of_ne_zero h0
      have hb := chunk_bytes_bounds d r hpos
      have hrem := write_step_remain s d src8 r hpos (by omega)
      have hdst : (write_step s d src8 r).2.1 = u32add d (chunk_bytes d r) := rfl
      have hsrc : (write_step s d src8 r).2.2.1 = src8.shift (chunk_bytes d r) := rfl
      have hd1 : u32add d (chunk_bytes d r) < 2 ^ 32 := by
        unfold u32add U32
        exact Nat.mod_lt _ (by decide)
      rw [write_loop_succ k s d src8 r h0, hdst, hsrc, hrem] at hrun
      have hend1 : u32add d (chunk_bytes d r) + (r - chunk_bytes d r) ≤ 2 ^ 32 := by
        by_cases hlast : r - chunk_bytes d r = 0
        · omega
        · rw [u32add_eq (by omega)]; omega
      obtain ⟨hlog, hinv', hok', hres⟩ := ih _ _ _ _ s' rem (write_step_inv s d hd src8 r)
        (write_step_healthy s hok d src8 r) hd1 (by omega) hend1 hrun
      have hP := page_addr_of_eq d hd
      refine ⟨fun x => ?_, hinv', hok', fun _ => ?_⟩
      swap
      · by_cases hlast : r - chunk_bytes d r = 0
        · rw [hlast, write_loop_zero] at hrun
          cases hrun
          rw [write_step_cache_addr, hP]
          omega
        · have := hres (by omega)
          rw [u32add_eq (by omega)] at this
          omega
      rw [hlog x, write_step_logical s hinv hok d hd src8 r hpos x]
      by_cases hlast : r - chunk_bytes d r = 0
      · have hw : chunk_bytes d r = r := by omega
        rw [hlast, hw]
        have : ¬ (u32add d r ≤ x ∧ x < u32add d r + 0) := by omega
        rw [if_neg this]
      · rw [u32add_eq (by omega)]
        simp only [Buf.shift]
        split_ifs <;> first | omega | (congr 1; omega)

/-! ## Write, then flush -/

theorem switch_page_flush (s : State) (p : Nat) (hne : p ≠ s.cache_addr)
    (hp : p ≠ FLASH_CACHE_INVALID_ADDR) :
    switch_page (flash_cache_flush s) p = switch_page s p := by
  have h1 : p ≠ (flash_cache_flush s).cache_addr := by rw [flush_cache_addr]; exact hp
  simp only [switch_page, if_pos h1, if_pos hne,
    flush_empty (flash_cache_flush s) (flush_cache_addr s)]

theorem write_loop_flush (fuel : Nat) (s : State) (d : Nat) (hd : d < 2 ^ 32) (src8 : Buf)
    (r : Nat) (hr : r ≠ 0) (hne : page_addr_of d ≠ s.cache_addr) :
    flash_cache_write_loop fuel (flash_cache_flush s) d src8 r =
      flash_cache_write_loop fuel s d src8 r := by
  cases fuel with
  | zero => rw [write_loop_out_of_fuel _ d src8 r hr, write_loop_out_of_fuel _ d src8 r hr]
  | succ k =>
    have hstep : write_step (flash_cache_flush s) d src8 r = write_step s d src8 r := by
      simp only [write_step, switch_page_flush s _ hne (page_addr_of_ne_invalid d hd)]
    rw [write_loop_succ k _ d src8 r hr, write_loop_succ k _ d src8 r hr, hstep]

theorem logical_of_empty (s : State) (he : s.cache_addr = FLASH_CACHE_INVALID_ADDR) (x : Nat) :
    logical_content s x = s.flash.mem x := by
  simp [logical_content, he]

/-- After the write loop and a flush the device holds the source bytes on
`[a, a + n)`, from any state of the slot. -/
theorem write_loop_commits (s : State) (hok : s.flash.Healthy) (a : Nat) (ha : a < 2 ^ 32)
    (src : Buf) (n : Nat) (hn : n < 2 ^ 32) (hend : a + n ≤ 2 ^ 32) (fuel : Nat) (s' : State)
    (rem : Nat) (hrun : flash_cache_write_loop fuel s a src n = some (s', rem))
    (x : Nat) (hx : a ≤ x ∧ x < a + n) :
    (flash_cache_flush s').flash.mem x = src (x - a) := by
  have key : ∀ s0 : State, SlotInv s0 → s0.flash.Healthy →
      flash_cache_write_loop fuel s0 a src n = some (s', rem) →
      (flash_cache_flush s').flash.mem x = src (x - a) := by
    intro s0 hinv0 hok0 hrun0
    obtain ⟨hlog, hinv', hok', _⟩ :=
      write_loop_logical fuel s0 a src n s' rem hinv0 hok0 ha hn hend hrun0
    rw [← logical_of_empty _ (flush_cache_addr s') x, flush_logical s' hinv' hok' x, hlog x,
      if_pos hx]
  by_cases hinv : SlotInv s
  · exact key s hinv hok hrun
  · have hne : page_addr_of a ≠ s.cache_addr := by
      intro h
      apply hinv
      right
      rw [← h]
      simpa [FLASH_CACHE_SIZE] using page_addr_of_aligned a ha
    have hn0 : n ≠ 0 := by omega
    apply key (flash_cache_flush s) (Or.inl (flush_cache_addr s)) (flush_healthy s hok)
    rw [write_loop_flush fuel s a ha src n hn0 hne]
    exact hrun

theorem write_result (s : State) (dst : Nat) (src : Buf) (len : Nat) (hlen : len < 2 ^ 32) :
    ∃ s', flash_cache_write_loop len s dst src len = some (s', 0) ∧
      flash_cache_write s dst src len = some (s', len) := by
  obtain ⟨s', hs'⟩ := write_loop_terminates len s dst src len hlen (Nat.le_refl _)
  refine ⟨s', hs', ?_⟩
  rw [flash_cache_write, hs']
  simp only [Option.map_some']
  rw [u32sub_eq (Nat.zero_le _) hlen]
  rfl

/-- C3: on a device whose operations succeed, from every cache state, after
`flash_cache_write(a, X, n)` (which returns `n`) followed by `flash_cache_flush()`, a
direct device read of `[a, a + n)` returns `X`, for every range inside the 32-bit
address space. -/
theorem write_flush_round_trip (s : State) (a : Nat) (X : Buf) (n : Nat)
    (hok : s.flash.Healthy) (ha : a < 2 ^ 32) (hn : n < 2 ^ 32) (hend : a + n ≤ 2 ^ 32) :
    ∃ s', flash_cache_write s a X n = some (s', n) ∧
      ∀ (dst : Buf) (i : Nat), i < n →
        ((flash_cache_flush s').flash.readBuffer a dst 0 n).2.2 i = X i := by
  obtain ⟨s', hloop, hw⟩ := write_result s a X n hn
  refine ⟨s', hw, fun dst i hi => ?_⟩
  have hfl : (flash_cache_flush s').flash.Healthy := by
    unfold Flash.Healthy
    rw [flush_ok]
    by_cases hinv : SlotInv s
    · exact (write_loop_logical n s a X n s' 0 hinv hok ha hn hend hloop).2.2.1
    · have hne : page_addr_of a ≠ s.cache_addr := by
        intro h
        apply hinv
        right
        rw [← h]
        simpa [FLASH_CACHE_SIZE] using page_addr_of_aligned a ha
      rw [← write_loop_flush n s a ha X n (by omega) hne] at hloop
      exact (write_loop_logical n _ a X n s' 0 (Or.inl (flush_cache_addr s))
        (flush_healthy s hok) ha hn hend hloop).2.2.1
  rw [readBuffer_buf _ hfl]
  have hmem := write_loop_commits s hok a ha X n hn hend n s' 0 hloop (a + i) (by omega)
  simp only [memcpy]
  rw [if_pos (by omega), Nat.sub_zero, hmem]
  congr 1
  omega

/-- Witness of C3: 200 bytes written at address 4000 from the start-up state. -/
theorem write_flush_round_trip_witness :
    zeroFlash.Healthy ∧ (4000 : Nat) + 200 ≤ 2 ^ 32 ∧
    ∃ s', flash_cache_write (emptyState zeroFlash) 4000 (fun i => i % 7) 200 = some (s', 200) ∧
      ∀ (dst : Buf) (i : Nat), i < 200 →
        ((flash_cache_flush s').flash.readBuffer 4000 dst 0 200).2.2 i = (fun i => i % 7) i :=
  ⟨fun _ => rfl, by decide,
   write_flush_round_trip (emptyState zeroFlash) 4000 (fun i => i % 7) 200 (fun _ => rfl)
     (by decide) (by decide) (by decide)⟩

/-! ## Write, then read -/

theorem read_zero_defined (s : State) (dst : Buf) (addr : Nat) (haddr : addr < 2 ^ 32)
    (hca : s.cache_addr < 2 ^ 32) :
    ∃ r, flash_cache_read s dst addr 0 = some r := by
  by_cases hov : read_overlaps s.cache_addr addr 0
  · have hov' := hov
    obtain ⟨_, h1, h2⟩ := hov'
    have e0 : u32add addr 0 = addr := u32add_eq (by omega)
    rw [e0] at h1
    simp only [u32add, U32, FLASH_CACHE_SIZE] at h2
    have hle : s.cache_addr ≤ addr := by omega
    have hin : addr - s.cache_addr < 4096 := by omega
    obtain ⟨hs, hdo, hcb⟩ := read_offsets_inside s.cache_addr addr 0 haddr hle hin (by decide)
    have hdef : read_defined s.cache_addr addr 0 := by
      unfold read_defined
      rw [hs, hdo, hcb]
      simp only [FLASH_CACHE_SIZE]
      omega
    exact ⟨_, by rw [flash_cache_read, if_pos hov, if_pos hdef]⟩
  · exact ⟨_, by rw [flash_cache_read, if_neg hov]⟩

/-- C2 fails on the code: from the start-up state over a device full of zeros, the
byte 1 written at address `0xfffff000` is not read back. The slot is then resident
at the last page, which the overlap test of `flash_cache_read` never matches, and
the read returns the stale device byte 0. -/
theorem write_then_read_top_page_stale :
    SlotInv (emptyState zeroFlash) ∧
    (fun _ => 1 : Buf) 0 = 1 ∧
    ((flash_cache_write (emptyState zeroFlash) 0xfffff000 (fun _ => 1) 1).bind
      (fun w => (flash_cache_read w.1 (fun _ => 9) 0xfffff000 1).map (fun r => (w.2, r.2 0))))
      = some (1, 0) := by
  refine ⟨Or.inl rfl, rfl, ?_⟩
  decide

/-- C2 as amended: on a device whose operations succeed, from every cache state
satisfying the slot invariant, for every write of fewer than `2^31` bytes that ends
at or below `2^32 - 4096` (so that the page left resident is not the last page),
`flash_cache_write(a, X, n)` followed by `flash_cache_read(dst, a, n)` with no flush
in between leaves `dst[0, n)` equal to `X`, over one page or several. -/
theorem write_then_read_coherent (s : State) (dst : Buf) (a : Nat) (X : Buf) (n : Nat)
    (hinv : SlotInv s) (hca : s.cache_addr < 2 ^ 32) (hok : s.flash.Healthy)
    (hend : a + n ≤ 2 ^ 32 - 4096) (hn : n < 2 ^ 31) :
    ∃ s' r, flash_cache_write s a X n = some (s', n) ∧
      flash_cache_read s' dst a n = some r ∧ ∀ i, i < n → r.2 i = X i := by
  obtain ⟨s', hloop, hw⟩ := write_result s a X n (by omega)
  by_cases h0 : n = 0
  · subst h0
    rw [write_loop_zero] at hloop
    cases hloop
    obtain ⟨r, hr⟩ := read_zero_defined s dst a (by omega) hca
    exact ⟨s, r, hw, hr, fun i hi => absurd hi (by omega)⟩
  · obtain ⟨hlog, _, hok', hres⟩ :=
      write_loop_logical n s a X n s' 0 hinv hok (by omega) (by omega) (by omega) hloop
    have hres' := hres (by omega)
    obtain ⟨r, hr, hbytes, _⟩ := read_coherent_of_slot s' dst a n (by omega) (by omega) hok'
      (Or.inr ⟨by omega, fun _ => ⟨by omega, hn⟩⟩)
    refine ⟨s', r, hw, hr, fun i hi => ?_⟩
    rw [hbytes i hi, hlog (a + i), if_pos (by omega)]
    congr 1
    omega

/-- Witness of the amended C2: 200 bytes written at address 4000 from the start-up
state (two pages) and read back. -/
theorem write_then_read_coherent_witness :
    SlotInv (emptyState zeroFlash) ∧ zeroFlash.Healthy ∧ (4000 : Nat) + 200 ≤ 2 ^ 32 - 4096 ∧
    ∃ s' r, flash_cache_write (emptyState zeroFlash) 4000 (fun i => i % 7) 200 = some (s', 200) ∧
      flash_cache_read s' (fun _ => 9) 4000 200 = some r ∧
      ∀ i, i < 200 → r.2 i = (fun i => i % 7) i :=
  ⟨Or.inl rfl, fun _ => rfl, by decide,
   write_then_read_coherent (emptyState zeroFlash) (fun _ => 9) 4000 (fun i => i % 7) 200
     (Or.inl rfl) (by decide) (fun _ => rfl) (by decide) (by decide)⟩

/-! ## Page arithmetic -/

/-- C20: for every 32-bit address `a`, `page_addr_of a` is `a` rounded down to a
multiple of 4096, `page_offset_of a` is `a mod 4096` and is below 4096, and the two
add up to `a`. -/
theorem page_helpers_arithmetic (a : Nat) (ha : a < 2 ^ 32) :
    page_addr_of a = a - a % 4096 ∧ page_addr_of a = a / 4096 * 4096 ∧
    page_offset_of a = a % 4096 ∧ page_offset_of a < 4096 ∧
    page_addr_of a + page_offset_of a = a := by
  have h1 := page_addr_of_eq a ha
  have h2 := page_offset_of_eq a
  refine ⟨h1, ?_, h2, ?_, page_addr_of_add_offset a ha⟩
  · rw [h1]; omega
  · rw [h2]; omega

/-- Witness of C20 at the address 4100. -/
theorem page_helpers_arithmetic_witness :
    (4100 : Nat) < 2 ^ 32 ∧
    (page_addr_of 4100 = 4100 - 4100 % 4096 ∧ page_addr_of 4100 = 4100 / 4096 * 4096 ∧
     page_offset_of 4100 = 4100 % 4096 ∧ page_offset_of 4100 < 4096 ∧
     page_addr_of 4100 + page_offset_of 4100 = 4100) :=
  ⟨by decide, page_helpers_arithmetic 4100 (by decide)⟩

/-- C15: in every iteration of the loop of `flash_cache_write` (so with
`remain ≠ 0`), `wr_bytes` is `min(remain, 4096 - offset)` without wrap-around, is at
least 1, does not exceed `remain`, and `offset + wr_bytes ≤ 4096`: the copy stays
inside `cache_buf` and inside the remaining source bytes. -/
theorem write_chunk_within_page (dst remain : Nat) (hr : remain ≠ 0) :
    chunk_bytes dst remain = min remain (4096 - page_offset_of dst) ∧
    1 ≤ chunk_bytes dst remain ∧
    page_offset_of dst + chunk_bytes dst remain ≤ FLASH_CACHE_SIZE ∧
    chunk_bytes dst remain ≤ remain := by
  have hb := chunk_bytes_bounds dst remain (Nat.pos_of_ne_zero hr)
  have he := chunk_bytes_eq dst remain
  rw [page_offset_of_eq]
  exact ⟨he, hb.1, by simpa [FLASH_CACHE_SIZE] using hb.2.2.2, hb.2.2.1⟩

/-- Witness of C15: 200 bytes left to write at address 4000. -/
theorem write_chunk_within_page_witness :
    (200 : Nat) ≠ 0 ∧
    (chunk_bytes 4000 200 = min 200 (4096 - page_offset_of 4000) ∧
     1 ≤ chunk_bytes 4000 200 ∧
     page_offset_of 4000 + chunk_bytes 4000 200 ≤ FLASH_CACHE_SIZE ∧
     chunk_bytes 4000 200 ≤ 200) :=
  ⟨by decide, write_chunk_within_page 4000 200 (by decide)⟩

/-! ## Command bridge -/

/-- C12 fails on the code: for the block number `2^23` the product `lba*512` wraps
around in `uint32_t`, the callbacks pass the byte address 0, and a write of that
block leaves the slot resident at page 0. -/
theorem msc_addr_wraps :
    (2 ^ 23 : Nat) < 2 ^ 32 ∧ msc_addr (2 ^ 23) = 0 ∧ (2 ^ 23 : Nat) * 512 = 2 ^ 32 ∧
    (msc_write_cb { cache := emptyState zeroFlash, last_access_ms := 0 } 7 (2 ^ 23)
        (fun _ => 1) 512).map (fun r => r.1.cache.cache_addr) = some 0 := by
  decide

/-- C12 as amended: the byte address that `msc_read_cb` and `msc_write_cb` pass to
the page cache is `lba * 512` modulo `2^32`; it equals `lba * 512` for every block
number below `2^23`. -/
theorem msc_addr_translation (m : MSC) (millis lba : Nat) (buffer : Buf) (bufsize : Nat) :
    msc_addr lba = lba * 512 % 2 ^ 32 ∧
    (lba < 2 ^ 23 → msc_addr lba = lba * 512) ∧
    msc_read_cb m millis lba buffer bufsize =
      (flash_cache_read m.cache buffer (lba * 512 % 2 ^ 32) bufsize).map
        (fun r => ({ cache := r.1, last_access_ms := millis }, r.2, toInt32 bufsize)) ∧
    msc_write_cb m millis lba buffer bufsize =
      (flash_cache_write m.cache (lba * 512 % 2 ^ 32) buffer bufsize).map
        (fun r => ({ cache := r.1, last_access_ms := millis }, toInt32 bufsize)) := by
  have h : msc_addr lba = lba * 512 % 2 ^ 32 := rfl
  refine ⟨h, ?_, ?_, ?_⟩
  · intro hl
    rw [h]
    exact Nat.mod_eq_of_lt (by omega)
  · rw [msc_read_cb, h]
  · rw [msc_write_cb, h]

/-- Witness of the amended C12 at block 8 (byte address 4096). -/
theorem msc_addr_translation_witness :
    (8 : Nat) < 2 ^ 23 ∧ msc_addr 8 = 8 * 512 :=
  ⟨by decide,
   (msc_addr_translation { cache := emptyState zeroFlash, last_access_ms := 0 } 0 8
     (fun _ => 0) 512).2.1 (by decide)⟩

/-- C11, at a failing input: over a device whose every operation reports failure,
`msc_read_cb` and `msc_write_cb` for block 0 and 512 bytes both return 512, not a
negative count, although the device read they issue has failed; the callbacks of
the SD build return -1 on a failed transfer. -/
theorem msc_callbacks_ignore_failure :
    ((emptyState failingFlash).flash.readBuffer (msc_addr 0) (fun _ => 0) 0 512).1 = false ∧
    (msc_read_cb { cache := emptyState failingFlash, last_access_ms := 0 } 7 0
        (fun _ => 0) 512).map (fun r => r.2.2) = some 512 ∧
    ((emptyState failingFlash).flash.readBuffer (page_addr_of (msc_addr 0))
        (emptyState failingFlash).cache_buf 0 4096).1 = false ∧
    (msc_write_cb { cache := emptyState failingFlash, last_access_ms := 0 } 7 0
        (fun _ => 1) 512).map (fun r => r.2) = some 512 ∧
    msc_read_cb_sd false = -1 ∧ msc_write_cb_sd false = -1 := by
  decide


/-! ## Reads leave the cache alone -/

theorem readBuffer_log (f : Flash) (addr : Nat) (dst : Buf) (off len : Nat) :
    (f.readBuffer addr dst off len).2.1.log = f.log ++ [FlashOp.readBuffer addr len] := rfl

theorem reads_refl (l : List FlashOp) :
    ∃ ops, l = l ++ ops ∧ ∀ op ∈ ops, FlashOp.isRead op = true :=
  ⟨[], by simp, by simp⟩

theorem reads_step (l m : List FlashOp)
    (h : ∃ ops, m = l ++ ops ∧ ∀ op ∈ ops, FlashOp.isRead op = true)
    (o : FlashOp) (ho : FlashOp.isRead o = true) :
    ∃ ops, m ++ [o] = l ++ ops ∧ ∀ op ∈ ops, FlashOp.isRead op = true := by
  obtain ⟨ops, h1, h2⟩ := h
  refine ⟨ops ++ [o], ?_, ?_⟩
  · rw [h1, List.append_assoc]
  · intro op hop
    rw [List.mem_append, List.mem_singleton] at hop
    rcases hop with h | rfl
    · exact h2 _ h
    · exact ho

/-- What `flash_cache_read` does to the state: nothing but device reads appended to
the log of the device. -/
theorem read_frame (s : State) (dst : Buf) (addr count : Nat) (r : State × Buf)
    (h : flash_cache_read s dst addr count = some r) :
    r.1.cache_addr = s.cache_addr ∧ r.1.cache_buf = s.cache_buf ∧
    r.1.flash.mem = s.flash.mem ∧ r.1.flash.ok = s.flash.ok ∧
    ∃ ops, r.1.flash.log = s.flash.log ++ ops ∧ ∀ op ∈ ops, FlashOp.isRead op = true := by
  unfold flash_cache_read at h
  by_cases hov : read_overlaps s.cache_addr addr count
  · rw [if_pos hov] at h
    by_cases hdef : read_defined s.cache_addr addr count
    · rw [if_pos hdef] at h
      simp only [Option.some.injEq] at h
      subst h
      by_cases h1 : read_dst_off s.cache_addr addr ≠ 0 <;>
      by_cases h2 : toU32 (read_dst_off s.cache_addr addr +
          read_cache_bytes s.cache_addr addr count) < count
      · rw [if_pos h1, if_pos h2]
        exact ⟨rfl, rfl, rfl, rfl,
          reads_step _ _ (reads_step _ _ (reads_refl _) _ (by rfl)) _ (by rfl)⟩
      · rw [if_pos h1, if_neg h2]
        exact ⟨rfl, rfl, rfl, rfl, reads_step _ _ (reads_refl _) _ (by rfl)⟩
      · rw [if_neg h1, if_pos h2]
        exact ⟨rfl, rfl, rfl, rfl, reads_step _ _ (reads_refl _) _ (by rfl)⟩
      · rw [if_neg h1, if_neg h2]
        exact ⟨rfl, rfl, rfl, rfl, reads_refl _⟩
    · rw [if_neg hdef] at h
      cases h
  · rw [if_neg hov] at h
    simp only [Option.some.injEq] at h
    subst h
    exact ⟨rfl, rfl, rfl, rfl, reads_step _ _ (reads_refl _) _ (by rfl)⟩

theorem read_some_iff (s : State) (dst : Buf) (addr count : Nat) :
    (∃ r, flash_cache_read s dst addr count = some r) ↔
      (read_overlaps s.cache_addr addr count → read_defined s.cache_addr addr count) := by
  unfold flash_cache_read
  by_cases hov : read_overlaps s.cache_addr addr count
  · rw [if_pos hov]
    by_cases hdef : read_defined s.cache_addr addr count
    · rw [if_pos hdef]
      exact ⟨fun _ _ => hdef, fun _ => ⟨_, rfl⟩⟩
    · rw [if_neg hdef]
      constructor
      · rintro ⟨r, hr⟩
        cases hr
      · intro h
        exact absurd (h hov) hdef
  · rw [if_neg hov]
    exact ⟨fun _ h => absurd h hov, fun _ => ⟨_, rfl⟩⟩

/-- The natural-number values of the overlay offsets in the overlap branch, for a
request that ends at or below `2^31`. -/
theorem read_overlay_values (b addr count : Nat) (hb : b < 2 ^ 32)
    (hend : addr + count ≤ 2 ^ 31) (hov : read_overlaps b addr count) :
    ∃ D S C : Nat, read_dst_off b addr = (D : Int) ∧ read_src_off b addr = (S : Int) ∧
      read_cache_bytes b addr count = (C : Int) ∧
      D ≤ count ∧ S < 4096 ∧ S + C ≤ 4096 ∧ D + C ≤ count := by
  obtain ⟨_, h1, h2⟩ := hov
  rw [u32add_eq (by omega)] at h1
  simp only [u32add, U32, FLASH_CACHE_SIZE] at h2
  by_cases hlt : addr < b
  · obtain ⟨hs, hdo, hcb⟩ := read_offsets_below b addr count hb hlt (by omega) (by omega)
      (by omega)
    exact ⟨_, 0, _, hdo, by rw [hs]; rfl, hcb, by omega, by omega, by omega, by omega⟩
  · obtain ⟨hs, hdo, hcb⟩ := read_offsets_inside b addr count (by omega) (by omega)
      (by omega) (by omega)
    exact ⟨0, _, _, by rw [hdo]; rfl, hs, hcb, by omega, by omega, by omega, by omega⟩

/-- C18: in the overlap branch of `flash_cache_read`, for a 32-bit `cache_addr` and a
request whose end `addr + count` does not exceed `2^31`, the computed offsets satisfy
`0 ≤ dst_off ≤ count`, `0 ≤ src_off < 4096`, `0 ≤ cache_bytes`,
`src_off + cache_bytes ≤ 4096` and `dst_off + cache_bytes ≤ count`; so the copy from
`cache_buf` is in bounds and the three pieces partition `dst[0, count)`. When the
end is below `2^31`, `copied = dst_off + cache_bytes` is an `int` as well. -/
theorem read_overlay_in_bounds (cache_addr addr count : Nat) (hb : cache_addr < 2 ^ 32)
    (hend : addr + count ≤ 2 ^ 31) (hov : read_overlaps cache_addr addr count) :
    0 ≤ read_dst_off cache_addr addr ∧ read_dst_off cache_addr addr ≤ (count : Int) ∧
    0 ≤ read_src_off cache_addr addr ∧ read_src_off cache_addr addr < 4096 ∧
    0 ≤ read_cache_bytes cache_addr addr count ∧
    read_src_off cache_addr addr + read_cache_bytes cache_addr addr count ≤ 4096 ∧
    read_dst_off cache_addr addr + read_cache_bytes cache_addr addr count ≤ (count : Int) ∧
    (addr + count < 2 ^ 31 → read_defined cache_addr addr count) := by
  obtain ⟨D, S, C, hdo, hs, hcb, h1, h2, h3, h4⟩ :=
    read_overlay_values cache_addr addr count hb hend hov
  unfold read_defined
  rw [hdo, hs, hcb]
  simp only [FLASH_CACHE_SIZE]
  omega

/-- Witness of C18, the scenario of the specification: slot at page 0, request of
200 bytes at address 4000. -/
theorem read_overlay_in_bounds_witness :
    read_overlaps 0 4000 200 ∧
    (0 ≤ read_dst_off 0 4000 ∧ read_dst_off 0 4000 ≤ ((200 : Nat) : Int) ∧
     0 ≤ read_src_off 0 4000 ∧ read_src_off 0 4000 < 4096 ∧
     0 ≤ read_cache_bytes 0 4000 200 ∧
     read_src_off 0 4000 + read_cache_bytes 0 4000 200 ≤ 4096 ∧
     read_dst_off 0 4000 + read_cache_bytes 0 4000 200 ≤ ((200 : Nat) : Int) ∧
     (4000 + 200 < 2 ^ 31 → read_defined 0 4000 200)) :=
  ⟨by decide, read_overlay_in_bounds 0 4000 200 (by decide) (by decide) (by decide)⟩

/-- C19: whenever `flash_cache_read` has a defined result it leaves `cache_addr`,
`cache_buf` and the device content unchanged and appends only device reads to the
device log; it has a defined result exactly when the overlap branch stays inside
`cache_buf`, in particular for every request that ends below `2^31`. -/
theorem flash_cache_read_frame (s : State) (dst : Buf) (addr count : Nat) :
    (∀ r, flash_cache_read s dst addr count = some r →
      r.1.cache_addr = s.cache_addr ∧ r.1.cache_buf = s.cache_buf ∧
      r.1.flash.mem = s.flash.mem ∧ r.1.flash.ok = s.flash.ok ∧
      ∃ ops, r.1.flash.log = s.flash.log ++ ops ∧ ∀ op ∈ ops, FlashOp.isRead op = true) ∧
    ((∃ r, flash_cache_read s dst addr count = some r) ↔
      (read_overlaps s.cache_addr addr count → read_defined s.cache_addr addr count)) ∧
    (s.cache_addr < 2 ^ 32 → addr + count < 2 ^ 31 →
      ∃ r, flash_cache_read s dst addr count = some r) := by
  refine ⟨fun r h => read_frame s dst addr count r h, read_some_iff s dst addr count, ?_⟩
  intro hb hend
  rw [read_some_iff]
  intro hov
  obtain ⟨D, S, C, hdo, hs, hcb, h1, h2, h3, h4⟩ :=
    read_overlay_values s.cache_addr addr count hb (by omega) hov
  unfold read_defined
  rw [hdo, hs, hcb]
  simp only [FLASH_CACHE_SIZE]
  omega

/-- Witness of C19: slot at page 0, request of 200 bytes at address 4000. -/
theorem flash_cache_read_frame_witness :
    ∃ r, flash_cache_read (dirtyState 0 zeroFlash) (fun _ => 9) 4000 200 = some r ∧
      r.1.cache_addr = (dirtyState 0 zeroFlash).cache_addr ∧
      r.1.cache_buf = (dirtyState 0 zeroFlash).cache_buf ∧
      r.1.flash.mem = (dirtyState 0 zeroFlash).flash.mem := by
  obtain ⟨hfr, _, hdef⟩ := flash_cache_read_frame (dirtyState 0 zeroFlash) (fun _ => 9) 4000 200
  obtain ⟨r, hr⟩ := hdef (by decide) (by decide)
  obtain ⟨h1, h2, h3, _⟩ := hfr r hr
  exact ⟨r, hr, h1, h2, h3⟩

/-! ## Slot invariant -/

theorem write_loop_inv (fuel : Nat) :
    ∀ (s : State) (d : Nat) (src8 : Buf) (r : Nat) (s' : State) (rem : Nat),
      SlotInv s → d < 2 ^ 32 →
      flash_cache_write_loop fuel s d src8 r = some (s', rem) → SlotInv s' := by
  induction fuel with
  | zero =>
    intro s d src8 r s' rem hinv _ hrun
    by_cases h0 : r = 0
    · subst h0
      rw [write_loop_zero] at hrun
      cases hrun
      exact hinv
    · rw [write_loop_out_of_fuel s d src8 r h0] at hrun
      cases hrun
  | succ k ih =>
    intro s d src8 r s' rem hinv hd hrun
    by_cases h0 : r = 0
    · subst h0
      rw [write_loop_zero] at hrun
      cases hrun
      exact hinv
    · rw [write_loop_succ k s d src8 r h0] at hrun
      have hd1 : (write_step s d src8 r).2.1 < 2 ^ 32 := by
        show u32add d (chunk_bytes d r) < 2 ^ 32
        unfold u32add U32
        exact Nat.mod_lt _ (by decide)
      exact ih _ _ _ _ s' rem (write_step_inv s d hd src8 r) hd1 hrun

theorem reachable_inv (s : State) (h : Reachable s) : SlotInv s := by
  induction h with
  | init s he => exact Or.inl he
  | write s s' dst src len ret _ hd _ hw ih =>
    unfold flash_cache_write at hw
    cases hloop : flash_cache_write_loop len s dst src len with
    | none => rw [hloop] at hw; cases hw
    | some r =>
      rw [hloop] at hw
      simp only [Option.map_some', Option.some.injEq, Prod.mk.injEq] at hw
      obtain ⟨h1, _⟩ := hw
      subst h1
      exact write_loop_inv len s dst src len r.1 r.2 ih hd hloop
  | read s s' dst addr count d _ hr ih =>
    have hf := (read_frame s dst addr count (s', d) hr).1
    unfold SlotInv at ih ⊢
    rw [hf]
    exact ih
  | flush s _ _ => exact Or.inl (flush_cache_addr s)

/-- C14: in every state reachable from a start-up state by calls of
`flash_cache_write`, `flash_cache_read` and `flash_cache_flush`, `cache_addr` is the
sentinel `0xffffffff` or a multiple of 4096; and no value of `page_addr_of` on a
32-bit address equals the sentinel (it is a multiple of 4096). -/
theorem slot_invariant_reachable :
    (∀ s, Reachable s →
      s.cache_addr = FLASH_CACHE_INVALID_ADDR ∨ s.cache_addr % 4096 = 0) ∧
    (∀ a, a < 2 ^ 32 →
      page_addr_of a ≠ FLASH_CACHE_INVALID_ADDR ∧ page_addr_of a % 4096 = 0) ∧
    FLASH_CACHE_INVALID_ADDR % 4096 ≠ 0 := by
  refine ⟨fun s h => ?_, fun a ha => ⟨page_addr_of_ne_invalid a ha, page_addr_of_aligned a ha⟩,
    by decide⟩
  have := reachable_inv s h
  simpa [SlotInv, FLASH_CACHE_SIZE] using this

/-- Witness of C14: the state after writing 200 bytes at address 4000 from start-up
is reachable and satisfies the invariant. -/
theorem slot_invariant_reachable_witness :
    ∃ s', flash_cache_write (emptyState zeroFlash) 4000 (fun _ => 0xAA) 200 = some (s', 200) ∧
      Reachable s' ∧
      (s'.cache_addr = FLASH_CACHE_INVALID_ADDR ∨ s'.cache_addr % 4096 = 0) := by
  obtain ⟨s', _, hw⟩ := write_result (emptyState zeroFlash) 4000 (fun _ => 0xAA) 200 (by decide)
  have hre : Reachable s' :=
    Reachable.write _ s' 4000 (fun _ => 0xAA) 200 200 (Reachable.init _ rfl) (by decide)
      (by decide) hw
  exact ⟨s', hw, hre, slot_invariant_reachable.1 s' hre⟩

/-! ## Writes inside one page -/

/-- A write that fits in the rest of the page of `a` is one iteration of the loop. -/
theorem write_one_chunk (s : State) (a : Nat) (X : Buf) (n : Nat) (hn : 1 ≤ n)
    (hpage : a % 4096 + n ≤ 4096) :
    flash_cache_write s a X n = some ((write_step s a X n).1, n) ∧
    chunk_bytes a n = n := by
  have hw : chunk_bytes a n = n := by rw [chunk_bytes_eq]; omega
  have hrem : (write_step s a X n).2.2.2 = 0 := by
    rw [write_step_remain s a X n (by omega) (by omega), hw]; omega
  obtain ⟨m, rfl⟩ : ∃ m, n = m + 1 := ⟨n - 1, by omega⟩
  refine ⟨?_, hw⟩
  rw [flash_cache_write, write_loop_succ m s a X (m + 1) (by omega), hrem, write_loop_zero]
  simp only [Option.map_some']
  rw [u32sub_eq (Nat.zero_le _) (by omega)]
  rfl

/-- C16: from an empty slot, on a device whose read succeeds, a write of `n ≥ 1`
bytes that lies within the single page `P` of `a` returns `n`, issues exactly one
device operation, the read of the whole page `P`, ends with `cache_addr = P` and
with `cache_buf` equal to the device content of `P` with the bytes
`[a mod 4096, a mod 4096 + n)` replaced by `X`, and leaves the device content
unchanged. -/
theorem flash_cache_write_populates (s : State) (a : Nat) (X : Buf) (n : Nat)
    (hemp : s.cache_addr = FLASH_CACHE_INVALID_ADDR) (hok : s.flash.Healthy)
    (ha : a < 2 ^ 32) (hn : 1 ≤ n) (hpage : a % 4096 + n ≤ 4096) :
    ∃ s', flash_cache_write s a X n = some (s', n) ∧
      s'.flash.log = s.flash.log ++ [FlashOp.readBuffer (page_addr_of a) 4096] ∧
      s'.cache_addr = page_addr_of a ∧
      (∀ i, i < 4096 → s'.cache_buf i =
        if a % 4096 ≤ i ∧ i < a % 4096 + n then X (i - a % 4096)
        else s.flash.mem (page_addr_of a + i)) ∧
      s'.flash.mem = s.flash.mem := by
  obtain ⟨hw, hchunk⟩ := write_one_chunk s a X n hn hpage
  have hinv := page_addr_of_ne_invalid a ha
  have hne : page_addr_of a ≠ s.cache_addr := by rw [hemp]; exact hinv
  have hsw : switch_page s (page_addr_of a) =
      { cache_addr := page_addr_of a,
        cache_buf := (s.flash.readBuffer (page_addr_of a) s.cache_buf 0 4096).2.2,
        flash := (s.flash.readBuffer (page_addr_of a) s.cache_buf 0 4096).2.1 } := by
    simp only [switch_page, if_pos hne, flush_empty s hemp, FLASH_CACHE_SIZE]
  refine ⟨_, hw, ?_, write_step_cache_addr s a X n, ?_, ?_⟩
  · show (switch_page s (page_addr_of a)).flash.log = _
    exact switch_page_log_empty s _ hemp hinv
  · intro i hi
    show memcpy (switch_page s (page_addr_of a)).cache_buf (page_offset_of a) X
      (chunk_bytes a n) i = _
    rw [hsw, hchunk, page_offset_of_eq, readBuffer_buf _ hok]
    simp only [memcpy]
    split_ifs <;> first | omega | congr 1
  · show (switch_page s (page_addr_of a)).flash.mem = _
    rw [hsw]
    rfl

/-- Witness of C16, the scenario of the specification: 50 bytes `0xAA` written at
address 100 from the start-up state. -/
theorem flash_cache_write_populates_witness :
    ∃ s', flash_cache_write (emptyState zeroFlash) 100 (fun _ => 0xAA) 50 = some (s', 50) ∧
      s'.flash.log =
        (emptyState zeroFlash).flash.log ++ [FlashOp.readBuffer (page_addr_of 100) 4096] ∧
      s'.cache_addr = page_addr_of 100 ∧
      (∀ i, i < 4096 → s'.cache_buf i =
        if 100 % 4096 ≤ i ∧ i < 100 % 4096 + 50 then (fun _ => 0xAA) (i - 100 % 4096)
        else (emptyState zeroFlash).flash.mem (page_addr_of 100 + i)) ∧
      s'.flash.mem = (emptyState zeroFlash).flash.mem :=
  flash_cache_write_populates (emptyState zeroFlash) 100 (fun _ => 0xAA) 50 rfl
    (fun _ => rfl) (by decide) (by decide) (by decide)

/-- C17: on a slot populated with a page-aligned base `b`, a write with `b ≤ a` and
`a + n ≤ b + 4096` returns `n`, issues no device operation (the device is left as it
was), keeps `cache_addr = b` and changes `cache_buf` only at the indices
`[a - b, a - b + n)`, which receive `X`. -/
theorem flash_cache_write_resident (s : State) (a : Nat) (X : Buf) (n : Nat)
    (hal : s.cache_addr % 4096 = 0) (ha : a < 2 ^ 32)
    (hlo : s.cache_addr ≤ a) (hhi : a + n ≤ s.cache_addr + 4096) :
    ∃ s', flash_cache_write s a X n = some (s', n) ∧
      s'.flash = s.flash ∧ s'.cache_addr = s.cache_addr ∧
      ∀ i, s'.cache_buf i =
        if a - s.cache_addr ≤ i ∧ i < a - s.cache_addr + n then X (i - (a - s.cache_addr))
        else s.cache_buf i := by
  by_cases h0 : n = 0
  · subst h0
    refine ⟨s, ?_, rfl, rfl, fun i => ?_⟩
    · rw [flash_cache_write, write_loop_zero]
      show some (s, u32sub 0 0) = some (s, 0)
      rw [u32sub_eq (Nat.le_refl 0) (by decide)]
    · have : ¬ (a - s.cache_addr ≤ i ∧ i < a - s.cache_addr + 0) := by omega
      rw [if_neg this]
  · have hP : page_addr_of a = s.cache_addr := by rw [page_addr_of_eq a ha]; omega
    have hoff : a % 4096 = a - s.cache_addr := by omega
    obtain ⟨hw, hchunk⟩ := write_one_chunk s a X n (by omega) (by omega)
    have hsw := switch_page_same s (page_addr_of a) hP
    refine ⟨_, hw, ?_, ?_, fun i => ?_⟩
    · show (switch_page s (page_addr_of a)).flash = _
      rw [hsw]
    · show (switch_page s (page_addr_of a)).cache_addr = _
      rw [hsw]
    · show memcpy (switch_page s (page_addr_of a)).cache_buf (page_offset_of a) X
        (chunk_bytes a n) i = _
      rw [hsw, hchunk, page_offset_of_eq, hoff]
      rfl

/-- Witness of C17: 50 bytes written at address 100 while page 0 is resident. -/
theorem flash_cache_write_resident_witness :
    ∃ s', flash_cache_write (dirtyState 0 zeroFlash) 100 (fun _ => 1) 50 = some (s', 50) ∧
      s'.flash = (dirtyState 0 zeroFlash).flash ∧
      s'.cache_addr = (dirtyState 0 zeroFlash).cache_addr ∧
      ∀ i, s'.cache_buf i =
        if 100 - (dirtyState 0 zeroFlash).cache_addr ≤ i ∧
            i < 100 - (dirtyState 0 zeroFlash).cache_addr + 50
        then (fun _ => 1) (i - (100 - (dirtyState 0 zeroFlash).cache_addr))
        else (dirtyState 0 zeroFlash).cache_buf i :=
  flash_cache_write_resident (dirtyState 0 zeroFlash) 100 (fun _ => 1) 50 (by decide)
    (by decide) (by decide) (by decide)

/-! ## Refinement of the logical content -/

/-- C13: for every state satisfying the slot invariant, on a device whose operations
succeed, `flash_cache_flush` leaves the logical content unchanged, and
`flash_cache_write(a, X, n)`, for a range `[a, a + n)` of the 32-bit address space,
returns `n` and changes the logical content to `X` exactly on `[a, a + n)` and
nowhere else, whether or not it evicts a resident page. -/
theorem logical_content_refinement (s : State) (hinv : SlotInv s) (hok : s.flash.Healthy) :
    (∀ x, logical_content (flash_cache_flush s) x = logical_content s x) ∧
    (∀ (a : Nat) (X : Buf) (n : Nat), a < 2 ^ 32 → n < 2 ^ 32 → a + n ≤ 2 ^ 32 →
      ∃ s', flash_cache_write s a X n = some (s', n) ∧
        ∀ x, logical_content s' x =
          if a ≤ x ∧ x < a + n then X (x - a) else logical_content s x) := by
  refine ⟨fun x => flush_logical s hinv hok x, fun a X n ha hn hend => ?_⟩
  obtain ⟨s', hloop, hw⟩ := write_result s a X n hn
  exact ⟨s', hw, (write_loop_logical n s a X n s' 0 hinv hok ha hn hend hloop).1⟩

/-- Witness of C13: page 0 resident, 200 bytes written at address 4000, which evicts
page 0. -/
theorem logical_content_refinement_witness :
    SlotInv (dirtyState 0 zeroFlash) ∧ (dirtyState 0 zeroFlash).flash.Healthy ∧
    ∃ s', flash_cache_write (dirtyState 0 zeroFlash) 4000 (fun i => i % 7) 200 =
        some (s', 200) ∧
      ∀ x, logical_content s' x =
        if 4000 ≤ x ∧ x < 4000 + 200 then (fun i => i % 7) (x - 4000)
        else logical_content (dirtyState 0 zeroFlash) x :=
  ⟨Or.inr (by decide), fun _ => rfl,
   (logical_content_refinement (dirtyState 0 zeroFlash) (Or.inr (by decide))
     (fun _ => rfl)).2 4000 (fun i => i % 7) 200 (by decide) (by decide) (by decide)⟩

end Arcada
